import Mathlib

/-!
Verification of the tarsnapper backup-retention tool against its
natural-language specification.

The development shallowly embeds the two Python source files
(`src/tarsnapper/config.py` and `src/tarsnapper/script.py`) into Lean.
Text is represented as `List Char` (abbreviated `Str`), Python exceptions
as an explicit `PyError` type, and fallible functions return `Except`.
The retention engine (`expire.expire`, imported by `script.py` but absent
from the inspected source) is modelled from the specification, as noted
at its definition.
-/

set_option maxHeartbeats 2000000

abbrev Str := List Char

/-- Python exception values observable in the embedded fragment. -/
inductive PyError where
  | configError (msg : Str)
  | valueError (msg : Str)
  | unboundLocal
  | keyError (msg : Str)
  | reError
  | tarsnapError (msg : Str)
deriving DecidableEq, Repr

instance {e a : Type} [DecidableEq e] [DecidableEq a] : DecidableEq (Except e a) := fun x y =>
  match x, y with
  | .ok u, .ok v =>
    if h : u = v then .isTrue (by rw [h]) else .isFalse (fun hh => h (Except.ok.inj hh))
  | .error u, .error v =>
    if h : u = v then .isTrue (by rw [h]) else .isFalse (fun hh => h (Except.error.inj hh))
  | .ok _, .error _ => .isFalse (fun hh => Except.noConfusion hh)
  | .error _, .ok _ => .isFalse (fun hh => Except.noConfusion hh)

/-- Python whitespace characters, per `string.whitespace`. -/
def pySpace (c : Char) : Bool :=
  c = ' ' ∨ c = '\t' ∨ c = '\n' ∨ c = '\x0b' ∨ c = '\x0c' ∨ c = '\r'

/-- Python `str.strip()`: remove leading and trailing whitespace. -/
def pyStrip (s : Str) : Str :=
  ((s.dropWhile pySpace).reverse.dropWhile pySpace).reverse

/-- Python `str.rstrip()`: remove trailing whitespace. -/
def pyRstrip (s : Str) : Str :=
  (s.reverse.dropWhile pySpace).reverse

/-- Python `str.split(sep)` with a one-character separator: splits at every
occurrence, keeping empty pieces (so `"".split(' ') = ['']`). -/
def pySplitChar (sep : Char) : Str → List Str
  | [] => [[]]
  | c :: rest =>
    let r := pySplitChar sep rest
    if c = sep then [] :: r
    else match r with
      | [] => [[c]]
      | piece :: more => (c :: piece) :: more

def isDigitCh (c : Char) : Bool := '0' ≤ c ∧ c ≤ '9'

def digitVal (c : Char) : Nat := c.toNat - '0'.toNat

def digitsToNat : Str → Option Nat
  | [] => none
  | ds =>
    if ds.all isDigitCh then some (ds.foldl (fun acc c => acc * 10 + digitVal c) 0)
    else none

/-- Python 2 `int(string)`: optional surrounding whitespace, optional sign,
then base-10 digits. `none` models the `ValueError` raised otherwise. -/
def pyInt (s : Str) : Option Int :=
  match pyStrip s with
  | '-' :: ds => (digitsToNat ds).map (fun n => -(n : Int))
  | '+' :: ds => (digitsToNat ds).map (fun n => (n : Int))
  | ds => (digitsToNat ds).map (fun n => (n : Int))

/-- `config.str_to_timedelta`: parse a duration string to a time span in
seconds.  The Python code checks the suffixes `s`, `h`, `d` in that order
and raises `ValueError` when none applies or `int()` fails. -/
def str_to_timedelta (text : Str) : Except PyError Int :=
  if text.getLast? = some 's' then
    match pyInt text.dropLast with
    | some n => .ok n
    | none => .error (.valueError text.dropLast)
  else if text.getLast? = some 'h' then
    match pyInt text.dropLast with
    | some n => .ok (n * 3600)
    | none => .error (.valueError text.dropLast)
  else if text.getLast? = some 'd' then
    match pyInt text.dropLast with
    | some n => .ok (n * 86400)
    | none => .error (.valueError text.dropLast)
  else .error (.valueError text)

/-- The `time`/`step` split of one delta token in `config.parse_deltas`:
a token without `;` is its own step; with `;` it is split, and a split
into more than two pieces reaches `raise ConfigError('... %s' % e)` with
`e` unbound, i.e. an uncaught `UnboundLocalError`. -/
def timeStep (item : Str) : Except PyError (Str × Str) :=
  if item.contains ';' = false then .ok (item, item)
  else
    let parts := pySplitChar ';' item
    if parts.length ≠ 2 then .error .unboundLocal
    else .ok (parts.headD [], (parts.drop 1).headD [])

/-- Parsing of one (already stripped, nonempty) delta token in
`config.parse_deltas`: both duration texts are parsed, a `ValueError`
from either is re-raised as `ConfigError`. -/
def parseDeltaToken (item : Str) : Except PyError (Int × Int) := do
  let (tt, ss) ← timeStep item
  match str_to_timedelta tt with
  | .error (.valueError m) => .error (.configError m)
  | .error e => .error e
  | .ok dtime =>
    match str_to_timedelta ss with
    | .error (.valueError m) => .error (.configError m)
    | .error e => .error e
    | .ok dstep => .ok (dtime, dstep)

/-- The token loop of `config.parse_deltas`: strip each raw piece, skip
empty ones, parse the rest, accumulating in order. -/
def deltasGo : List Str → List (Int × Int) → Except PyError (List (Int × Int))
  | [], acc => .ok acc.reverse
  | it :: rest, acc =>
    let it' := pyStrip it
    if it' = [] then deltasGo rest acc
    else
      match parseDeltaToken it' with
      | .error e => .error e
      | .ok d => deltasGo rest (d :: acc)

def atLeastTwoMsg : Str := "At least two deltas are required".data

/-- The final arity check of `config.parse_deltas`:
`if deltas and len(deltas) < 2: raise ConfigError(...)`. -/
def lengthCheck (ds : List (Int × Int)) : Except PyError (Option (List (Int × Int))) :=
  if ds ≠ [] ∧ ds.length < 2 then .error (.configError atLeastTwoMsg)
  else .ok (some ds)

/-- `config.parse_deltas`: `None` input returns `None`; otherwise the
string is split on the space character and each stripped, nonempty token
is parsed as a `(time, step)` tier. -/
def parse_deltas : Option Str → Except PyError (Option (List (Int × Int)))
  | none => .ok none
  | some s =>
    match deltasGo (pySplitChar ' ' s) [] with
    | .error e => .error e
    | .ok ds => lengthCheck ds

/-- The job-deltas resolution line of `config.load_config`:
`deltas = parse_deltas(job_dict.pop('deltas', None)) or default_deltas`.
Python truthiness: `None` and the empty list are falsy. -/
def loadJobDeltas (jobSpec : Option Str) (defaultDeltas : Option (List (Int × Int))) :
    Except PyError (Option (List (Int × Int))) := do
  let d ← parse_deltas jobSpec
  pure (match d with
    | none => defaultDeltas
    | some [] => defaultDeltas
    | some l => some l)

/-- Spec-side definition (written from the specification's words, for
comparison): `parseDuration` strips one trailing unit character and
converts the remaining text with Python integer conversion. -/
def specParseDuration (text : Str) : Except PyError Int :=
  match text.getLast? with
  | some 's' =>
    match pyInt text.dropLast with
    | some n => .ok n
    | none => .error (.valueError text.dropLast)
  | some 'h' =>
    match pyInt text.dropLast with
    | some n => .ok (n * 3600)
    | none => .error (.valueError text.dropLast)
  | some 'd' =>
    match pyInt text.dropLast with
    | some n => .ok (n * 86400)
    | none => .error (.valueError text.dropLast)
  | _ => .error (.valueError text)

/-- Spec-side definition: splitting a tier specification on whitespace
runs, dropping empty tokens (Python `str.split()` with no argument),
as claim C7 reads "splits the string on whitespace". -/
def whitespaceTokens : Str → List Str
  | [] => []
  | c :: rest =>
    if pySpace c then whitespaceTokens rest
    else
      match whitespaceTokens rest with
      | [] => [[c]]
      | piece :: more =>
        match rest with
        | [] => [[c]]
        | r :: _ => if pySpace r then [c] :: piece :: more else (c :: piece) :: more

/-- The space-split, stripped, nonempty tokens that `parse_deltas`
actually processes. -/
def cleanedTokens (s : Str) : List Str :=
  ((pySplitChar ' ' s).map pyStrip).filter (fun t => !t.isEmpty)

/-- Straight-line parsing of a list of already-cleaned tier tokens. -/
def deltasFromTokens : List Str → Except PyError (List (Int × Int))
  | [] => .ok []
  | t :: ts => do
    let d ← parseDeltaToken t
    let r ← deltasFromTokens ts
    pure (d :: r)

/-- A calendar timestamp, as produced by `datetime.strptime`. -/
structure Timestamp where
  year : Nat
  month : Nat
  day : Nat
  hour : Nat
  minute : Nat
  second : Nat
deriving DecidableEq, Repr

def isLeap (y : Nat) : Bool := y % 4 = 0 ∧ (y % 100 ≠ 0 ∨ y % 400 = 0)

def daysInMonth (y m : Nat) : Nat :=
  if m = 2 then (if isLeap y then 29 else 28)
  else if m = 4 ∨ m = 6 ∨ m = 9 ∨ m = 11 then 30
  else 31

def daysBeforeMonth (y m : Nat) : Nat :=
  (List.range (m - 1)).foldl (fun acc i => acc + daysInMonth y (i + 1)) 0

/-- Days from 0001-01-01 (day 0), the proleptic Gregorian ordinal used by
Python's `datetime.date.toordinal`, shifted by one. -/
def toOrdinal (t : Timestamp) : Nat :=
  let py := t.year - 1
  (365 * py + py / 4 + py / 400) - py / 100 + daysBeforeMonth t.year t.month + (t.day - 1)

/-- Seconds since 0001-01-01 00:00:00; used for age arithmetic. -/
def tsToSec (t : Timestamp) : Int :=
  ((toOrdinal t * 86400 + t.hour * 3600 + t.minute * 60 + t.second : Nat) : Int)

/-- Failures of `datetime.strptime`: `valueErr` is a Python `ValueError`
(bad directive, no match, unconverted data, out-of-range field); `reError`
is the uncaught `sre` error raised when a directive is repeated (duplicate
regex group name). -/
inductive SErr where
  | valueErr
  | reError
deriving DecidableEq, Repr

/-- One element of a compiled strptime format: a literal character, a
whitespace run (CPython replaces whitespace runs in the format by the
regex `\s+`), or a field directive. -/
inductive FTok where
  | lit (c : Char)
  | ws
  | dir (c : Char)
deriving DecidableEq, Repr

def dirChars : List Char := ['Y', 'm', 'd', 'H', 'M', 'S']

/-- Scan a strptime format string into tokens.  Adjacent whitespace
characters collapse into a single `\s+`-style token; `%%` is a literal
percent; an unsupported directive is a `ValueError`. -/
def fmtScan : Str → Except SErr (List FTok)
  | [] => .ok []
  | '%' :: rest =>
    match rest with
    | [] => .error .valueErr
    | c :: r =>
      if c = '%' then
        match fmtScan r with
        | .error e => .error e
        | .ok toks => .ok (.lit '%' :: toks)
      else if c ∈ dirChars then
        match fmtScan r with
        | .error e => .error e
        | .ok toks => .ok (.dir c :: toks)
      else .error .valueErr
  | c :: rest =>
    match fmtScan rest with
    | .error e => .error e
    | .ok toks =>
      if pySpace c then
        .ok (match toks with
          | .ws :: _ => toks
          | _ => .ws :: toks)
      else .ok (.lit c :: toks)

def fmtDirs (toks : List FTok) : List Char :=
  toks.filterMap (fun t => match t with | .dir c => some c | _ => none)

def nodupB : List Char → Bool
  | [] => true
  | c :: rest => !rest.contains c && nodupB rest

/-- Compile a strptime format: scan it, then fail with the `sre`
"redefinition of group name" error if a directive repeats. -/
def fmtCompile (f : Str) : Except SErr (List FTok) :=
  match fmtScan f with
  | .error e => .error e
  | .ok toks => if nodupB (fmtDirs toks) then .ok toks else .error .reError

/-- The ordered regex alternatives CPython's `_strptime` uses for each
directive, e.g. `%d` is `3[01]|[12]\d|0[1-9]|[1-9]`.  Each entry is a
possible `(value, remaining input)` in the engine's preference order. -/
def dAlts (d : Char) (s : Str) : List (Nat × Str) :=
  match d with
  | 'Y' =>
    match s with
    | a :: b :: c :: e :: r =>
      if isDigitCh a && isDigitCh b && isDigitCh c && isDigitCh e then
        [(digitVal a * 1000 + digitVal b * 100 + digitVal c * 10 + digitVal e, r)]
      else []
    | _ => []
  | 'm' =>
    (match s with
     | '1' :: x :: r => if '0' ≤ x ∧ x ≤ '2' then [(10 + digitVal x, r)] else []
     | _ => []) ++
    (match s with
     | '0' :: x :: r => if '1' ≤ x ∧ x ≤ '9' then [(digitVal x, r)] else []
     | _ => []) ++
    (match s with
     | x :: r => if '1' ≤ x ∧ x ≤ '9' then [(digitVal x, r)] else []
     | _ => [])
  | 'd' =>
    (match s with
     | '3' :: x :: r => if x = '0' ∨ x = '1' then [(30 + digitVal x, r)] else []
     | _ => []) ++
    (match s with
     | x :: y :: r => if (x = '1' ∨ x = '2') ∧ isDigitCh y then [(digitVal x * 10 + digitVal y, r)] else []
     | _ => []) ++
    (match s with
     | '0' :: x :: r => if '1' ≤ x ∧ x ≤ '9' then [(digitVal x, r)] else []
     | _ => []) ++
    (match s with
     | x :: r => if '1' ≤ x ∧ x ≤ '9' then [(digitVal x, r)] else []
     | _ => [])
  | 'H' =>
    (match s with
     | '2' :: x :: r => if '0' ≤ x ∧ x ≤ '3' then [(20 + digitVal x, r)] else []
     | _ => []) ++
    (match s with
     | x :: y :: r => if (x = '0' ∨ x = '1') ∧ isDigitCh y then [(digitVal x * 10 + digitVal y, r)] else []
     | _ => []) ++
    (match s with
     | x :: r => if isDigitCh x then [(digitVal x, r)] else []
     | _ => [])
  | 'M' =>
    (match s with
     | x :: y :: r => if '0' ≤ x ∧ x ≤ '5' ∧ isDigitCh y then [(digitVal x * 10 + digitVal y, r)] else []
     | _ => []) ++
    (match s with
     | x :: r => if isDigitCh x then [(digitVal x, r)] else []
     | _ => [])
  | 'S' =>
    (match s with
     | '6' :: x :: r => if x = '0' ∨ x = '1' then [(60 + digitVal x, r)] else []
     | _ => []) ++
    (match s with
     | x :: y :: r => if '0' ≤ x ∧ x ≤ '5' ∧ isDigitCh y then [(digitVal x * 10 + digitVal y, r)] else []
     | _ => []) ++
    (match s with
     | x :: r => if isDigitCh x then [(digitVal x, r)] else []
     | _ => [])
  | _ => []

def countLeadWs : Str → Nat
  | [] => 0
  | c :: r => if pySpace c then countLeadWs r + 1 else 0

/-- The candidate remainders for a greedy `\\s+`: consume all the
leading whitespace first, then one character fewer, down to one. -/
def wsAlts (s : Str) : List Str :=
  (List.range (countLeadWs s)).map (fun i => s.drop (countLeadWs s - i))

/-- Fuel-driven backtracking matcher for a compiled strptime format,
mirroring the regex engine: alternatives are tried in preference order,
`\\s+` is greedy, and the first complete match of the token list is
returned together with the unconsumed input.  Each recursion step
consumes one token, so `length+1` units of fuel never run out. -/
def matchToksF : Nat → List FTok → Str → Option (List (Char × Nat) × Str)
  | 0, _, _ => none
  | _ + 1, [], s => some ([], s)
  | fu + 1, .lit c :: ts, s =>
    match s with
    | [] => none
    | x :: s' => if x = c then matchToksF fu ts s' else none
  | fu + 1, .ws :: ts, s =>
    (wsAlts s).findSome? (fun s' => matchToksF fu ts s')
  | fu + 1, .dir d :: ts, s =>
    (dAlts d s).findSome? (fun vs =>
      (matchToksF fu ts vs.2).map (fun pr => ((d, vs.1) :: pr.1, pr.2)))

def matchToks (ts : List FTok) (s : Str) : Option (List (Char × Nat) × Str) :=
  matchToksF (ts.length + 1) ts s

/-- Field assembly and validation of `datetime.strptime`: unmentioned
fields default to 1900-01-01 00:00:00 and the `datetime` constructor
rejects out-of-range values (seconds above 59, impossible calendar days,
year 0). -/
def buildTs (fs : List (Char × Nat)) : Option Timestamp :=
  let get := fun (c : Char) (dflt : Nat) => ((fs.lookup c).getD dflt)
  let y := get 'Y' 1900
  let m := get 'm' 1
  let d := get 'd' 1
  let hh := get 'H' 0
  let mi := get 'M' 0
  let ss := get 'S' 0
  if 1 ≤ y ∧ 1 ≤ m ∧ m ≤ 12 ∧ 1 ≤ d ∧ d ≤ daysInMonth y m ∧ hh ≤ 23 ∧ mi ≤ 59 ∧ ss ≤ 59 then
    some ⟨y, m, d, hh, mi, ss⟩
  else none

/-- `datetime.strptime(s, f)` for the directive subset `%Y %m %d %H %M %S`
(plus `%%` and literals) that this program uses. -/
def strptime (s f : Str) : Except SErr Timestamp :=
  match fmtCompile f with
  | .error e => .error e
  | .ok toks =>
    match matchToks toks s with
    | none => .error .valueErr
    | some (fs, rest) =>
      if rest = [] then
        match buildTs fs with
        | some t => .ok t
        | none => .error .valueErr
      else .error .valueErr

def natDigitsStr (n : Nat) : Str := (toString n).data

def padTo (w : Nat) (s : Str) : Str := List.replicate (w - s.length) '0' ++ s

/-- `datetime.strftime` for the same directive subset: zero-padded
numeric fields, `%%` is a literal percent, unknown directives pass
through unchanged. -/
def strftime : Str → Timestamp → Str
  | [], _ => []
  | '%' :: c :: r, t =>
    (if c = 'Y' then padTo 4 (natDigitsStr t.year)
     else if c = 'm' then padTo 2 (natDigitsStr t.month)
     else if c = 'd' then padTo 2 (natDigitsStr t.day)
     else if c = 'H' then padTo 2 (natDigitsStr t.hour)
     else if c = 'M' then padTo 2 (natDigitsStr t.minute)
     else if c = 'S' then padTo 2 (natDigitsStr t.second)
     else if c = '%' then ['%']
     else ['%', c]) ++ strftime r t
  | ['%'], _ => ['%']
  | c :: r, t => c :: strftime r t

def fmtSeconds : Str := "%Y%m%d-%H%M%S".data

def fmtMinutes : Str := "%Y%m%d-%H%M".data

/-- `script.DATE_FORMATS`. -/
def DATE_FORMATS : List Str := [fmtSeconds, fmtMinutes]

/-- `script.DEFAULT_DATEFORMAT`. -/
def DEFAULT_DATEFORMAT : Str := fmtSeconds

def notSupportedMsg (s : Str) : Str := s

/-- The format-trying loop of `script.parse_date`: only `ValueError` is
swallowed by `except ValueError: pass`; the regex error from a repeated
directive propagates. -/
def parseDateGo (s : Str) : List Str → Except PyError Timestamp
  | [] => .error (.valueError (notSupportedMsg s))
  | f :: fs =>
    match strptime s f with
    | .ok t => .ok t
    | .error .valueErr => parseDateGo s fs
    | .error .reError => .error .reError

/-- `script.parse_date`: `[dateformat] if dateformat else DATE_FORMATS` —
note the truthiness test, under which an empty-string format falls back
to the builtin format list. -/
def parse_date (s : Str) (dateformat : Option Str) : Except PyError Timestamp :=
  let formats :=
    match dateformat with
    | some f => if f = [] then DATE_FORMATS else [f]
    | none => DATE_FORMATS
  parseDateGo s formats

/-- One token of a `string.Template` pattern: a literal character, a
`$identifier` or `${identifier}` placeholder, or an invalid `$`. -/
inductive TTok where
  | lit (c : Char)
  | var (braced : Bool) (id : Str)
  | invalid
deriving DecidableEq, Repr

def isAsciiAlphaCh (c : Char) : Bool :=
  ('a' ≤ c ∧ c ≤ 'z') ∨ ('A' ≤ c ∧ c ≤ 'Z')

def idStart (c : Char) : Bool := c = '_' ∨ isAsciiAlphaCh c

def idCont (c : Char) : Bool := idStart c ∨ isDigitCh c

/-- Scanner mode while tokenizing a `string.Template` body. -/
inductive TMode where
  | top
  | dollar
  | varAcc (acc : Str)
  | bracedAcc (acc : Str)
deriving DecidableEq, Repr

/-- Fuel-driven tokenizer loop (fuel only bounds the recursion; each
step costs one unit and a processed character costs at most two, so
`2*length+2` units never run out). -/
def tokFuel : Nat → TMode → Str → List TTok
  | 0, _, _ => []
  | _ + 1, .top, [] => []
  | fu + 1, .top, '$' :: rest => tokFuel fu .dollar rest
  | fu + 1, .top, c :: rest => .lit c :: tokFuel fu .top rest
  | _ + 1, .dollar, [] => [.invalid]
  | fu + 1, .dollar, '$' :: r => .lit '$' :: tokFuel fu .top r
  | fu + 1, .dollar, '{' :: r =>
    (match r with
     | c :: r' =>
       if idStart c then tokFuel fu (.bracedAcc [c]) r'
       else .invalid :: .lit '{' :: tokFuel fu .top (c :: r')
     | [] => [.invalid, .lit '{'])
  | fu + 1, .dollar, c :: r =>
    if idStart c then tokFuel fu (.varAcc [c]) r
    else .invalid :: tokFuel fu .top (c :: r)
  | _ + 1, .varAcc acc, [] => [.var false acc.reverse]
  | fu + 1, .varAcc acc, c :: r =>
    if idCont c then tokFuel fu (.varAcc (c :: acc)) r
    else .var false acc.reverse :: tokFuel fu .top (c :: r)
  | _ + 1, .bracedAcc acc, [] => .invalid :: .lit '{' :: acc.reverse.map .lit
  | fu + 1, .bracedAcc acc, c :: r =>
    if idCont c then tokFuel fu (.bracedAcc (c :: acc)) r
    else if c = '}' then .var true acc.reverse :: tokFuel fu .top r
    else .invalid :: .lit '{' :: (acc.reverse.map .lit ++ tokFuel fu .top (c :: r))

/-- Tokenize a `string.Template` body, following the CPython 2.7 pattern
for `$`-placeholders (case-insensitive identifiers): `$$` is an escaped
dollar, `$id` and `${id}` are placeholders, and any other `$` matches
the empty `invalid` group, after which scanning resumes right after
the `$`. -/
def tokenizeT (s : Str) : List TTok := tokFuel (2 * s.length + 2) .top s

def lookupA (k : Str) : List (Str × Str) → Option Str
  | [] => none
  | (k', v) :: rest => if k' = k then some v else lookupA k rest

def invalidPlaceholderMsg : Str := "Invalid placeholder in string".data

/-- Render one template token under `Template.substitute` semantics:
missing keys raise `KeyError`, an invalid `$` raises `ValueError`. -/
def renderTok (m : List (Str × Str)) : TTok → Except PyError Str
  | .lit c => .ok [c]
  | .var _ id =>
    match lookupA id m with
    | some v => .ok v
    | none => .error (.keyError id)
  | .invalid => .error (.valueError invalidPlaceholderMsg)

def renderToks (m : List (Str × Str)) : List TTok → Except PyError Str
  | [] => .ok []
  | t :: ts =>
    match renderTok m t with
    | .error e => .error e
    | .ok s =>
      match renderToks m ts with
      | .error e => .error e
      | .ok r => .ok (s ++ r)

/-- `string.Template(tmpl).substitute(m)`. -/
def substituteT (tmpl : Str) (m : List (Str × Str)) : Except PyError Str :=
  renderToks m (tokenizeT tmpl)

/-- Render one token under `safe_substitute` semantics: missing keys and
invalid dollars are left as the matched text. -/
def safeTok (m : List (Str × Str)) : TTok → Str
  | .lit c => [c]
  | .var false id => (lookupA id m).getD ('$' :: id)
  | .var true id => (lookupA id m).getD ('$' :: '{' :: (id ++ ['}']))
  | .invalid => ['$']

/-- `string.Template(tmpl).safe_substitute(m)`. -/
def safe_substituteT (tmpl : Str) (m : List (Str × Str)) : Str :=
  (tokenizeT tmpl).flatMap (safeTok m)

def isAlnumUnd (c : Char) : Bool :=
  c = '_' ∨ isAsciiAlphaCh c ∨ isDigitCh c

/-- One character of Python 2.7 `re.escape` output: alphanumerics and the
underscore are kept, NUL becomes `\000`, anything else is
backslash-escaped. -/
def escChar (c : Char) : Str :=
  if isAlnumUnd c then [c]
  else if c = '\x00' then ['\\', '0', '0', '0']
  else ['\\', c]

/-- Python 2.7 `re.escape`. -/
def reEscape (s : Str) : Str := s.flatMap escChar

/-- Does `pat` occur at the head of `s`? -/
def strStarts : Str → Str → Bool
  | [], _ => true
  | _ :: _, [] => false
  | p :: ps, c :: cs => p = c && strStarts ps cs

/-- Number of positions of `s` at which `pat` occurs (overlaps counted). -/
def countOcc (pat : Str) : Str → Nat
  | [] => if strStarts pat [] then 1 else 0
  | c :: t => (if strStarts pat (c :: t) then 1 else 0) + countOcc pat t

/-- Fuel-driven loop of Python `str.replace` (with a nonempty pattern
each step consumes at least one character, so `length+1` units of fuel
never run out). -/
def replaceAllF : Nat → Str → Str → Str → Str
  | 0, s, _, _ => s
  | _ + 1, s, [], _ => s
  | _ + 1, [], _ :: _, _ => []
  | fu + 1, c :: t, p :: ps, rep =>
    if strStarts (p :: ps) (c :: t) then rep ++ replaceAllF fu (t.drop ps.length) (p :: ps) rep
    else c :: replaceAllF fu t (p :: ps) rep

/-- Python `str.replace`: replace non-overlapping occurrences left to
right (for a nonempty pattern). -/
def replaceAll (s pat rep : Str) : Str := replaceAllF (s.length + 1) s pat rep

/-- The capture-group text `script.get_backups` splices into the escaped
target: `(?P<date>.*?)`. -/
def groupStr : Str := "(?P<date>.*?)".data

/-- The compiled form of the patterns `get_backups` builds: a literal
run, optionally followed by one non-greedy any-character group and a
second literal run, anchored on both sides. -/
structure CompiledPat where
  litsPre : Str
  hasGroup : Bool
  litsPost : Str
deriving DecidableEq, Repr

def groupTail : Str := "?P<date>.*?)".data

def regexMeta (c : Char) : Bool :=
  c = '.' ∨ c = '^' ∨ c = '$' ∨ c = '*' ∨ c = '+' ∨ c = '?' ∨ c = '{' ∨ c = '}' ∨
  c = '[' ∨ c = ']' ∨ c = '\\' ∨ c = '|' ∨ c = '(' ∨ c = ')'

/-- Fuel-driven parser for the body (between `^` and `$`) of a
generated pattern (each step consumes at least one character, so
`length+1` units of fuel never run out).  Escaped characters are
literals (`\\000` is NUL), `(` must open the exact `(?P<date>.*?)`
group, a second such group is the `re` "redefinition of group name"
error, and any bare metacharacter is outside the generated grammar
(mapped to the regex-error case). -/
def pbDone (pre : Str) (g : Option Str) : Except PyError CompiledPat :=
  match g with
  | none => .ok ⟨pre.reverse, false, []⟩
  | some post => .ok ⟨pre.reverse, true, post.reverse⟩

/-- Append one literal to whichever run (before or after the group) is
being accumulated. -/
def pbPush (c : Char) (pre : Str) (g : Option Str) : Str × Option Str :=
  match g with
  | none => (c :: pre, none)
  | some post => (pre, some (c :: post))

/-- Fuel-driven parser for the body (between `^` and `$`) of a
generated pattern (each step consumes at least one character, so
`length+1` units of fuel never run out).  Escaped characters are
literals (`\000` is NUL), `(` must open the exact `(?P<date>.*?)`
group, a second such group is the `re` "redefinition of group name"
error, and any bare metacharacter is outside the generated grammar
(mapped to the regex-error case). -/
def parseBodyF : Nat → Str → Str → Option Str → Except PyError CompiledPat
  | 0, _, pre, g => pbDone pre g
  | fu + 1, s, pre, g =>
    match s with
    | [] => pbDone pre g
    | c :: r =>
      if c = '\\' then
        if strStarts ['0', '0', '0'] r then
          parseBodyF fu (r.drop 3) (pbPush '\x00' pre g).1 (pbPush '\x00' pre g).2
        else
          match r with
          | [] => .error .reError
          | c2 :: r' => parseBodyF fu r' (pbPush c2 pre g).1 (pbPush c2 pre g).2
      else if c = '(' then
        if strStarts groupTail r then
          match g with
          | some _ => .error .reError
          | none => parseBodyF fu (r.drop groupTail.length) pre (some [])
        else .error .reError
      else if regexMeta c then .error .reError
      else parseBodyF fu r (pbPush c pre g).1 (pbPush c pre g).2

def parseBody (sIn : Str) (pre : Str) (g : Option Str) : Except PyError CompiledPat :=
  parseBodyF (sIn.length + 1) sIn pre g

/-- `re.compile` restricted to the pattern strings `get_backups` builds:
a `^`, an escaped body with at most one date group, and a final `$`. -/
def compilePattern (p : Str) : Except PyError CompiledPat :=
  match p with
  | '^' :: rest =>
    if rest.getLast? = some '$' then parseBody rest.dropLast [] none
    else .error .reError
  | _ => .error .reError

/-- `$`-anchor semantics of Python `re`: end of input, or just before a
single final newline. -/
def endOk : Str → Bool
  | [] => true
  | c :: rest => c = '\n' && rest.isEmpty

/-- Non-greedy group search: return the shortest newline-free prefix of
the input after which the literal tail and the end anchor match. -/
def findCap (post : Str) : Str → Str → Option Str
  | acc, [] =>
    if strStarts post [] && endOk (([] : Str).drop post.length) then some acc.reverse else none
  | acc, c :: s' =>
    if strStarts post (c :: s') && endOk ((c :: s').drop post.length) then some acc.reverse
    else if c = '\n' then none
    else findCap post (c :: acc) s' 

/-- `regex.match(s)` for a compiled pattern, returning `none` on no
match, and the date group's text (if the pattern has one) on a match. -/
def reMatch (p : CompiledPat) (s : Str) : Option (Option Str) :=
  if strStarts p.litsPre s then
    let rest := s.drop p.litsPre.length
    if p.hasGroup then (findCap p.litsPost [] rest).map some
    else if endOk rest then some none else none
  else none

def nameKey : Str := "name".data

def dateKey : Str := "date".data

/-- A backup job, with the fields `script.py` reads. -/
structure Job where
  name : Str
  target : Str
  dateformat : Option Str
  deltas : Option (List (Int × Int))
  sources : List Str
deriving DecidableEq, Repr

/-- The matcher construction in `script.TarsnapBackend.get_backups`: the
template is instantiated with the job name and a marker string standing
for `uuid.uuid4().hex`, the result is regex-escaped, the marker is
replaced by the date group, and the whole is anchored. -/
def jobMatcher (uniq : Str) (job : Job) : Except PyError CompiledPat := do
  let target ← substituteT job.target [(nameKey, job.name), (dateKey, uniq)]
  compilePattern ('^' :: (replaceAll (reEscape target) uniq groupStr ++ ['$']))

/-- Python dict assignment on an association list: overwrite in place or
append. -/
def dictSet (m : List (Str × Timestamp)) (k : Str) (v : Timestamp) : List (Str × Timestamp) :=
  match m with
  | [] => [(k, v)]
  | (k', v') :: rest => if k' = k then (k, v) :: rest else (k', v') :: dictSet rest k v

/-- The archive loop of `get_backups`: skip non-matching identifiers,
parse the captured date of matching ones (aborting on the first parse
failure), and collect the result map.  A match with no date group would
make `match.groupdict()['date']` raise `KeyError`. -/
def backupsGo (pat : CompiledPat) (df : Option Str) :
    List Str → List (Str × Timestamp) → Except PyError (List (Str × Timestamp))
  | [], acc => .ok acc
  | p :: rest, acc =>
    match reMatch pat p with
    | none => backupsGo pat df rest acc
    | some none => .error (.keyError dateKey)
    | some (some d) =>
      match parse_date d df with
      | .error e => .error e
      | .ok t => backupsGo pat df rest (dictSet acc p t)

/-- `script.TarsnapBackend.get_backups`. -/
def get_backups (uniq : Str) (job : Job) (archives : List Str) :
    Except PyError (List (Str × Timestamp)) := do
  let pat ← jobMatcher uniq job
  backupsGo pat job.dateformat archives []

def strLe : Str → Str → Bool
  | [], _ => true
  | _ :: _, [] => false
  | a :: as, b :: bs => if a = b then strLe as bs else decide (a < b)

/-- Processing order of the retention engine: timestamp descending,
ties broken by identifier ascending. -/
def backupBefore (a b : Str × Timestamp) : Bool :=
  if tsToSec a.2 = tsToSec b.2 then strLe a.1 b.1 else decide (tsToSec b.2 < tsToSec a.2)

def insertSortedB (x : Str × Timestamp) : List (Str × Timestamp) → List (Str × Timestamp)
  | [] => [x]
  | y :: ys => if backupBefore x y then x :: y :: ys else y :: insertSortedB x ys

def sortBackups (l : List (Str × Timestamp)) : List (Str × Timestamp) :=
  l.foldr insertSortedB []

/-- The first (finest) tier whose window covers the age, with its index. -/
def findTier : List (Int × Int) → Int → Nat → Option (Nat × Int)
  | [], _, _ => none
  | (w, r) :: ts, age, i => if age ≤ w then some (i, r) else findTier ts age (i + 1)

/-- Bucket-filling loop of the retention engine. -/
def keepGo (tiers : List (Int × Int)) (now : Int) :
    List (Str × Timestamp) → List (Nat × Int) → List Str → List Str
  | [], _, kept => kept.reverse
  | (nm, ts) :: rest, filled, kept =>
    let age := now - tsToSec ts
    match findTier tiers age 0 with
    | none => keepGo tiers now rest filled kept
    | some (i, r) =>
      let b := Int.fdiv age r
      if (i, b) ∈ filled then keepGo tiers now rest filled kept
      else keepGo tiers now rest ((i, b) :: filled) (nm :: kept)

/-- Modelled from the spec: the retention engine `expire.expire` — the
`expire` module is imported by `script.py` but its source is not among
the inspected files.  This follows specification section 4.4
(`computeKeepSet`): with no tiers or no backups everything is kept;
otherwise backups are processed newest first (ties by identifier), each
is assigned to the first tier whose window covers its age (none ⇒
expired), and within a tier at most one backup is kept per
`floor(age / resolution)` bucket. -/
def computeKeepSet (backups : List (Str × Timestamp)) (tiers : List (Int × Int)) (now : Int) :
    List Str :=
  if tiers.isEmpty || backups.isEmpty then backups.map Prod.fst
  else keepGo tiers now (sortBackups backups) [] []

/-- One invocation of the external tarsnap binary. -/
inductive ExtCall where
  | listArchives
  | deleteA (name : Str)
  | createA (target : Str) (sources : List Str)
deriving DecidableEq, Repr

/-- The external world `script.TarsnapBackend._call` talks to: the
archive listing the tool would print, and which create/delete/list calls
fail with which stderr text. -/
structure ToolEnv where
  listing : List Str
  listFails : Option Str
  deleteFails : Str → Option Str
  createFails : Str → Option Str

/-- `TarsnapBackend._call`: run one tarsnap invocation; a nonzero exit
status raises `TarsnapError` carrying the stderr text, otherwise the
stdout lines are returned. -/
def tarsnapCall (env : ToolEnv) : ExtCall → Except PyError (List Str)
  | .listArchives =>
    match env.listFails with
    | some e => .error (.tarsnapError e)
    | none => .ok env.listing
  | .deleteA n =>
    match env.deleteFails n with
    | some e => .error (.tarsnapError e)
    | none => .ok []
  | .createA t _srcs =>
    match env.createFails t with
    | some e => .error (.tarsnapError e)
    | none => .ok []

/-- The mutable state of a `TarsnapBackend`: the cached archive list
(`None` before the first `--list-archives`). -/
structure BState where
  archiveList : Option (List Str)
deriving DecidableEq, Repr

/-- Result of one backend operation: the Python return value or raised
exception, the backend state afterwards, and the external calls made. -/
structure StepOut (α : Type) where
  res : Except PyError α
  st : BState
  calls : List ExtCall
deriving Repr, DecidableEq

/-- `TarsnapBackend.get_archives`: query `--list-archives` on first
access (stripping each line's trailing whitespace), cache thereafter. -/
def get_archives (env : ToolEnv) (st : BState) : StepOut (List Str) :=
  match st.archiveList with
  | some l => ⟨.ok l, st, []⟩
  | none =>
    match tarsnapCall env .listArchives with
    | .error e => ⟨.error e, st, [.listArchives]⟩
    | .ok lines =>
      let l := lines.map pyRstrip
      ⟨.ok l, ⟨some l⟩, [.listArchives]⟩

/-- The deletion loop of `TarsnapBackend.expire`: for every matched
backup not in the keep set, call `tarsnap -d -f name` unless in dry-run
mode, then remove the name from the cached archive list (a
`list.remove` of a missing element would raise `ValueError`). -/
def expireGo (env : ToolEnv) (dryrun : Bool) (toKeep : List Str) :
    List (Str × Timestamp) → BState → List ExtCall → StepOut Unit
  | [], st, cs => ⟨.ok (), st, cs⟩
  | (nm, _) :: rest, st, cs =>
    if toKeep.contains nm then expireGo env dryrun toKeep rest st cs
    else
      if dryrun then
        match get_archives env st with
        | ⟨.error e, st', cs'⟩ => ⟨.error e, st', cs ++ cs'⟩
        | ⟨.ok l, _, cs'⟩ =>
          if l.contains nm then
            expireGo env dryrun toKeep rest ⟨some (l.erase nm)⟩ (cs ++ cs')
          else ⟨.error (.valueError nm), ⟨some l⟩, cs ++ cs'⟩
      else
        match tarsnapCall env (.deleteA nm) with
        | .error e => ⟨.error e, st, cs ++ [.deleteA nm]⟩
        | .ok _ =>
          match get_archives env st with
          | ⟨.error e, st', cs'⟩ => ⟨.error e, st', cs ++ [.deleteA nm] ++ cs'⟩
          | ⟨.ok l, _, cs'⟩ =>
            if l.contains nm then
              expireGo env dryrun toKeep rest ⟨some (l.erase nm)⟩ (cs ++ [.deleteA nm] ++ cs')
            else ⟨.error (.valueError nm), ⟨some l⟩, cs ++ [.deleteA nm] ++ cs'⟩

/-- `TarsnapBackend.expire`: list and match the job's backups, compute
the keep set, and delete the rest. -/
def expire_op (env : ToolEnv) (nowTs : Timestamp) (uniq : Str) (dryrun : Bool) (job : Job)
    (st : BState) : StepOut Unit :=
  match get_archives env st with
  | ⟨.error e, st', cs⟩ => ⟨.error e, st', cs⟩
  | ⟨.ok archives, st', cs⟩ =>
    match get_backups uniq job archives with
    | .error e => ⟨.error e, st', cs⟩
    | .ok backups =>
      let toKeep := computeKeepSet backups (job.deltas.getD []) (tsToSec nowTs)
      let r := expireGo env dryrun toKeep backups st' []
      ⟨r.res, r.st, cs ++ r.calls⟩

/-- The date format `TarsnapBackend.make` renders `now` with:
`job.dateformat or DEFAULT_DATEFORMAT` (truthiness, so an empty string
falls back). -/
def makeFmt (job : Job) : Str :=
  match job.dateformat with
  | some f => if f = [] then DEFAULT_DATEFORMAT else f
  | none => DEFAULT_DATEFORMAT

/-- The archive name `TarsnapBackend.make` creates. -/
def makeTarget (job : Job) (nowTs : Timestamp) : Str :=
  safe_substituteT job.target [(dateKey, strftime (makeFmt job) nowTs), (nameKey, job.name)]

/-- `TarsnapBackend.make`: render the target name, call
`tarsnap -c -f target sources` unless in dry-run mode, then append the
new name to the cached archive list (querying it first if not yet
cached). -/
def make_op (env : ToolEnv) (nowTs : Timestamp) (dryrun : Bool) (job : Job) (st : BState) :
    StepOut Str :=
  let target := makeTarget job nowTs
  let fin : List ExtCall → StepOut Str := fun cs =>
    match get_archives env st with
    | ⟨.error e, st', cs'⟩ => ⟨.error e, st', cs ++ cs'⟩
    | ⟨.ok l, _, cs'⟩ => ⟨.ok target, ⟨some (l ++ [target])⟩, cs ++ cs'⟩
  if dryrun then fin []
  else
    match tarsnapCall env (.createA target job.sources) with
    | .error e => ⟨.error e, st, [.createA target job.sources]⟩
    | .ok _ => fin [.createA target job.sources]

/-- The per-job loop of `script.main` running the expire command: jobs
are processed sequentially and the first uncaught exception aborts the
remaining jobs (a `TarsnapError` is then caught at top level and turned
into exit code 1). -/
def runJobs (env : ToolEnv) (nowTs : Timestamp) (uniq : Str) (dryrun : Bool) :
    List Job → BState → StepOut Unit
  | [], st => ⟨.ok (), st, []⟩
  | j :: js, st =>
    match expire_op env nowTs uniq dryrun j st with
    | ⟨.error e, st', cs⟩ => ⟨.error e, st', cs⟩
    | ⟨.ok _, st', cs⟩ =>
      let r := runJobs env nowTs uniq dryrun js st'
      ⟨r.res, r.st, cs ++ r.calls⟩

/-- Is a call one of the destructive (create/delete) tarsnap calls? -/
def isDestructive : ExtCall → Bool
  | .listArchives => false
  | .deleteA _ => true
  | .createA _ _ => true

def noDestructive (cs : List ExtCall) : Bool := cs.all (fun c => !isDestructive c)

/-- The identifiers `TarsnapBackend.expire` deletes for a job, in
processing order. -/
def deletedNames (backups : List (Str × Timestamp)) (tiers : List (Int × Int)) (now : Int) :
    List Str :=
  (backups.filter (fun b => !(computeKeepSet backups tiers now).contains b.1)).map Prod.fst

theorem deltasGo_eq_clean (raw : List Str) (acc : List (Int × Int)) :
    deltasGo raw acc =
      match deltasFromTokens ((raw.map pyStrip).filter (fun t => !t.isEmpty)) with
      | .ok l => .ok (acc.reverse ++ l)
      | .error e => .error e := by
  induction raw generalizing acc with
  | nil => simp [deltasGo, deltasFromTokens]
  | cons it rest ih =>
    simp only [deltasGo, List.map_cons, List.filter_cons]
    by_cases h : pyStrip it = []
    · simp [h, List.isEmpty_iff, ih]
    · have hne : (!(pyStrip it).isEmpty) = true := by
        simp [List.isEmpty_iff, h]
      rw [if_neg h, hne]
      simp only [deltasFromTokens]
      cases hp : parseDeltaToken (pyStrip it) with
      | error e => simp [hp, Except.bind, bind, Except.map, Functor.map]
      | ok d =>
        simp only [hp, Except.bind, bind, Except.map, Functor.map]
        rw [ih]
        cases hr : deltasFromTokens ((rest.map pyStrip).filter (fun t => !t.isEmpty)) with
        | error e => simp [hr]
        | ok l => simp [hr, pure, Except.pure]

/-- C7 counterexample: on `"1s\t2s"` (a tab between tokens, no space)
the claim's whitespace-splitting reading yields two valid tiers, but
`parse_deltas` — which splits on the space character only — treats the
whole string as one token and fails with a `ConfigError`. -/
theorem spec_c7_cex :
    parse_deltas (some ("1s\t2s").data) = .error (.configError ("1s\t2").data) ∧
    whitespaceTokens ("1s\t2s").data = [("1s").data, ("2s").data] ∧
    deltasFromTokens (whitespaceTokens ("1s\t2s").data) = .ok [((1 : Int), (1 : Int)), (2, 2)] ∧
    lengthCheck [((1 : Int), (1 : Int)), (2, 2)] = .ok (some [(1, 1), (2, 2)]) := by
  decide

/-- C7 (amended): `parseTierList` splits its input on the space
character, strips surrounding whitespace from each piece and drops empty
ones, parses each remaining token as a tier, and applies the 0-or-≥2
arity rule; a `None` specification yields `None` ("no expiry policy"). -/
theorem spec_c7_tier_list :
    parse_deltas none = .ok none ∧
    ∀ s : Str, parse_deltas (some s) =
      match deltasFromTokens (cleanedTokens s) with
      | .ok ds => lengthCheck ds
      | .error e => .error e := by
  refine ⟨rfl, fun s => ?_⟩
  simp only [parse_deltas, cleanedTokens]
  rw [deltasGo_eq_clean]
  cases deltasFromTokens (((pySplitChar ' ' s).map pyStrip).filter (fun t => !t.isEmpty)) with
  | error e => simp
  | ok l => simp

/-- C3: `parse_deltas` succeeds only with zero or at least two tiers,
and a specification whose token loop yields exactly one tier fails with
the `ConfigError` "At least two deltas are required". -/
theorem spec_c3_arity :
    (∀ (s : Str) (l : List (Int × Int)),
      parse_deltas (some s) = .ok (some l) → l = [] ∨ 2 ≤ l.length) ∧
    (∀ (s : Str) (t : Int × Int),
      deltasGo (pySplitChar ' ' s) [] = .ok [t] →
      parse_deltas (some s) = .error (.configError atLeastTwoMsg)) := by
  constructor
  · intro s l h
    simp only [parse_deltas] at h
    cases hg : deltasGo (pySplitChar ' ' s) [] with
    | error e => rw [hg] at h; exact absurd h (by simp)
    | ok ds =>
      rw [hg] at h
      simp only [lengthCheck] at h
      by_cases hc : ds ≠ [] ∧ ds.length < 2
      · rw [if_pos hc] at h; exact absurd h (by simp)
      · rw [if_neg hc] at h
        simp only [Except.ok.injEq, Option.some.injEq] at h
        subst h
        push_neg at hc
        by_cases hds : ds = []
        · exact Or.inl hds
        · exact Or.inr (hc hds)
  · intro s t h
    simp only [parse_deltas, h, lengthCheck]
    simp

theorem spec_c3_arity_witness :
    deltasGo (pySplitChar ' ' ("1d").data) [] = .ok [((86400 : Int), (86400 : Int))] ∧
    parse_deltas (some ("1d").data) = .error (.configError atLeastTwoMsg) :=
  ⟨by decide, spec_c3_arity.2 ("1d").data ((86400 : Int), (86400 : Int)) (by decide)⟩

/-- C4: a delta token with more than one `;` does not reach a
`ConfigError` — the `raise ConfigError('Not a valid delta: %s' % e)`
line references the not-yet-bound variable `e`, so the call dies with an
uncaught `UnboundLocalError` instead.  The no-`;` and one-`;` behaviors
are as claimed. -/
theorem spec_c4_bug :
    parse_deltas (some ("1d;1d;1d").data) = .error .unboundLocal ∧
    timeStep ("1d;1d;1d").data = .error .unboundLocal ∧
    timeStep ("1d").data = .ok (("1d").data, ("1d").data) ∧
    timeStep ("1d;2h").data = .ok (("1d").data, ("2h").data) ∧
    parseDeltaToken ("2h").data = .ok ((7200 : Int), (7200 : Int)) := by
  decide

/-- C6 counterexample: `"-5s"` parses to a negative time span, so the
claimed non-negativity fails (`int()` accepts a sign). -/
theorem spec_c6_cex :
    str_to_timedelta ("-5s").data = .ok (-5) ∧ (-5 : Int) < 0 := by
  decide

/-- C6 (amended): `str_to_timedelta` strips one trailing unit character
in `{s, h, d}` (seconds, hours, days) and converts the remainder with
Python integer conversion (optional surrounding whitespace and sign, so
the span may be negative); it fails with `ValueError` when the suffix is
missing or unrecognized or the conversion fails. -/
theorem spec_c6_duration :
    ∀ t : Str, str_to_timedelta t = specParseDuration t := by
  intro t
  simp only [str_to_timedelta, specParseDuration]
  cases h : t.getLast? with
  | none => simp [h]
  | some c =>
    by_cases hs : c = 's'
    · subst hs; simp
    · by_cases hh : c = 'h'
      · subst hh; simp
      · by_cases hd : c = 'd'
        · subst hd; simp
        · have h1 : (some c = some 's') = False := by simp [hs]
          have h2 : (some c = some 'h') = False := by simp [hh]
          have h3 : (some c = some 'd') = False := by simp [hd]
          simp only [h1, h2, h3, if_false]
          cases c
          simp_all

/-- C10: a per-job `deltas` string that parses to the empty tier list
(e.g. whitespace only) never reaches the job; the `or default_deltas`
truthiness fallback substitutes the global default tier list. -/
theorem spec_c10_default_deltas :
    ∀ (s : Str) (dflt : Option (List (Int × Int))),
      parse_deltas (some s) = .ok (some []) →
      loadJobDeltas (some s) dflt = .ok dflt := by
  intro s dflt h
  simp [loadJobDeltas, h, bind, Except.bind, pure, Except.pure]

theorem spec_c10_default_deltas_witness :
    parse_deltas (some (" ").data) = .ok (some []) ∧
    loadJobDeltas (some (" ").data) (some [((3600 : Int), (3600 : Int)), (86400, 86400)]) =
      .ok (some [(3600, 3600), (86400, 86400)]) :=
  ⟨by decide, spec_c10_default_deltas (" ").data (some [(3600, 3600), (86400, 86400)]) (by decide)⟩

theorem strptime_ok_or_valueErr (s f : Str) (h : fmtCompile f ≠ .error .reError) :
    (∃ t, strptime s f = .ok t) ∨ strptime s f = .error .valueErr := by
  cases hc : fmtCompile f with
  | error e =>
    cases e with
    | valueErr => exact Or.inr (by simp [strptime, hc])
    | reError => exact absurd hc h
  | ok toks =>
    cases hm : matchToks toks s with
    | none => exact Or.inr (by simp [strptime, hc, hm])
    | some pr =>
      by_cases hr : pr.2 = []
      · cases hb : buildTs pr.1 with
        | none => exact Or.inr (by simp [strptime, hc, hm, hr, hb])
        | some t => exact Or.inl ⟨t, by simp [strptime, hc, hm, hr, hb]⟩
      · exact Or.inr (by simp [strptime, hc, hm, hr])

theorem fmtCompile_ok_no_reError (s f : Str) (toks : List FTok) (h : fmtCompile f = .ok toks) :
    strptime s f ≠ .error .reError := by
  cases hm : matchToks toks s with
  | none => simp [strptime, h, hm]
  | some pr =>
    by_cases hr : pr.2 = []
    · cases hb : buildTs pr.1 with
      | none => simp [strptime, h, hm, hr, hb]
      | some t => simp [strptime, h, hm, hr, hb]
    · simp [strptime, h, hm, hr]

/-- C8 counterexample: with the explicit (empty) date format `""`,
`strptime` succeeds on the empty text (all fields default to
1900-01-01), but `parse_date` treats the empty format as absent by
truthiness and fails after trying only the two builtin formats —
contradicting "parses with that format only". -/
theorem spec_c8_cex :
    strptime [] [] = .ok ⟨1900, 1, 1, 0, 0, 0⟩ ∧
    parse_date [] (some []) = .error (.valueError []) := by
  decide

/-- C8 (amended): for a NON-EMPTY explicit date format, `parse_date`
parses with that format only (an uncaught regex error from a repeated
directive propagates as such); with no format — or the empty-string
format, which truthiness treats as absent — it tries the
seconds-resolution builtin format, then the minutes-resolution one,
returning the first success and failing with the date-parse
`ValueError` otherwise. -/
theorem spec_c8_parse_date (s f : Str) :
    (f ≠ [] → parse_date s (some f) =
      match strptime s f with
      | .ok t => .ok t
      | .error .valueErr => .error (.valueError (notSupportedMsg s))
      | .error .reError => .error .reError) ∧
    (parse_date s none =
      match strptime s fmtSeconds with
      | .ok t => .ok t
      | .error _ =>
        match strptime s fmtMinutes with
        | .ok t => .ok t
        | .error _ => .error (.valueError (notSupportedMsg s))) ∧
    parse_date s (some []) = parse_date s none := by
  have hsec : fmtCompile fmtSeconds = .ok [.dir 'Y', .dir 'm', .dir 'd', .lit '-', .dir 'H', .dir 'M', .dir 'S'] := by
    decide
  have hmin : fmtCompile fmtMinutes = .ok [.dir 'Y', .dir 'm', .dir 'd', .lit '-', .dir 'H', .dir 'M'] := by
    decide
  refine ⟨?_, ?_, ?_⟩
  · intro hf
    simp only [parse_date, if_neg hf, parseDateGo]
  · simp only [parse_date, DATE_FORMATS, parseDateGo]
    cases hs : strptime s fmtSeconds with
    | ok t => rfl
    | error e =>
      cases e with
      | reError => exact absurd hs (fmtCompile_ok_no_reError s fmtSeconds _ hsec)
      | valueErr =>
        cases hm : strptime s fmtMinutes with
        | ok t => rfl
        | error e2 =>
          cases e2 with
          | reError => exact absurd hm (fmtCompile_ok_no_reError s fmtMinutes _ hmin)
          | valueErr => rfl
  · simp [parse_date]

theorem spec_c8_parse_date_witness :
    parse_date ("1230").data (some ("%H%M").data) = .ok ⟨1900, 1, 1, 12, 30, 0⟩ ∧
    parse_date ("20240110-1230").data none = .ok ⟨2024, 1, 10, 12, 3, 0⟩ := by
  constructor
  · have h := (spec_c8_parse_date ("1230").data ("%H%M").data).1 (by decide)
    rw [h]; decide
  · have h := (spec_c8_parse_date ("20240110-1230").data ("%H%M").data).2.1
    rw [h]; decide

theorem strptime_valueErr_no_reError (s f : Str) (h : strptime s f = .error .valueErr) :
    fmtCompile f ≠ .error .reError := by
  intro hc
  simp only [strptime, hc] at h
  exact SErr.noConfusion (Except.error.inj h)

theorem parseDateGo_valueError_all (s : Str) :
    ∀ (L : List Str) (m : Str), parseDateGo s L = .error (.valueError m) →
      ∀ f ∈ L, strptime s f = .error .valueErr := by
  intro L
  induction L with
  | nil => intro m _ f hf; exact absurd hf (List.not_mem_nil f)
  | cons f0 fs ih =>
    intro m h f hf
    simp only [parseDateGo] at h
    cases hs : strptime s f0 with
    | ok t => rw [hs] at h; exact absurd h (by simp)
    | error e =>
      cases e with
      | reError =>
        rw [hs] at h
        exact absurd (Except.error.inj h) (by simp)
      | valueErr =>
        rw [hs] at h
        rcases List.mem_cons.mp hf with rfl | hf'
        · exact hs
        · exact ih m h f hf'

theorem parseDateGo_ok_or_valueError (s' : Str) :
    ∀ L : List Str, (∀ f ∈ L, fmtCompile f ≠ .error .reError) →
      (∃ t, parseDateGo s' L = .ok t) ∨ ∃ m', parseDateGo s' L = .error (.valueError m') := by
  intro L
  induction L with
  | nil => intro _; exact Or.inr ⟨notSupportedMsg s', rfl⟩
  | cons f0 fs ih =>
    intro hL
    rcases strptime_ok_or_valueErr s' f0 (hL f0 (List.mem_cons_self f0 fs)) with ⟨t, ht⟩ | hv
    · exact Or.inl ⟨t, by simp only [parseDateGo, ht]⟩
    · have := ih (fun f hf => hL f (List.mem_cons_of_mem f0 hf))
      rcases this with ⟨t, ht⟩ | ⟨m', hm'⟩
      · exact Or.inl ⟨t, by simp only [parseDateGo, hv]; exact ht⟩
      · exact Or.inr ⟨m', by simp only [parseDateGo, hv]; exact hm'⟩

/-- If `parse_date` fails with a date-parse `ValueError` for some text,
then for every other text (same format option) it either succeeds or
fails with a date-parse `ValueError` — never the regex error. -/
theorem parse_date_shape (d d' : Str) (df : Option Str) (msg : Str)
    (h : parse_date d df = .error (.valueError msg)) :
    (∃ t, parse_date d' df = .ok t) ∨ ∃ m', parse_date d' df = .error (.valueError m') := by
  simp only [parse_date] at h ⊢
  apply parseDateGo_ok_or_valueError
  intro f hf
  exact strptime_valueErr_no_reError d f (parseDateGo_valueError_all d _ msg h f hf)

theorem reMatch_hasGroup_of_capture (pat : CompiledPat) (a d : Str)
    (h : reMatch pat a = some (some d)) : pat.hasGroup = true := by
  simp only [reMatch] at h
  by_cases h1 : strStarts pat.litsPre a = true
  · rw [if_pos h1] at h
    by_cases h2 : pat.hasGroup = true
    · exact h2
    · simp only [h2, if_neg, Bool.false_eq_true, if_false] at h
      by_cases h3 : endOk (a.drop pat.litsPre.length) = true
      · rw [if_pos h3] at h; exact absurd (Option.some.inj h) (by simp)
      · rw [if_neg h3] at h; exact absurd h (by simp)
  · rw [if_neg h1] at h; exact absurd h (by simp)

theorem reMatch_no_bare_match (pat : CompiledPat) (a : Str) (hg : pat.hasGroup = true) :
    reMatch pat a ≠ some none := by
  intro h
  simp only [reMatch, hg, if_true] at h
  by_cases h1 : strStarts pat.litsPre a = true
  · rw [if_pos h1] at h
    cases hf : findCap pat.litsPost [] (a.drop pat.litsPre.length) with
    | none => simp [hf] at h
    | some x => simp [hf] at h
  · rw [if_neg h1] at h; exact absurd h (by simp)

theorem mem_dictSet (acc : List (Str × Timestamp)) (k p : Str) (v t : Timestamp)
    (h : (p, t) ∈ dictSet acc k v) : (p = k ∧ t = v) ∨ (p, t) ∈ acc := by
  induction acc with
  | nil =>
    simp only [dictSet, List.mem_singleton] at h
    exact Or.inl ⟨congrArg Prod.fst h, congrArg Prod.snd h⟩
  | cons kv rest ih =>
    simp only [dictSet] at h
    by_cases hk : kv.1 = k
    · rw [if_pos hk] at h
      rcases List.mem_cons.mp h with he | hm
      · exact Or.inl ⟨congrArg Prod.fst he, congrArg Prod.snd he⟩
      · exact Or.inr (List.mem_cons_of_mem kv hm)
    · rw [if_neg hk] at h
      rcases List.mem_cons.mp h with he | hm
      · exact Or.inr (by rw [he]; exact List.mem_cons_self kv rest)
      · rcases ih hm with h1 | h2
        · exact Or.inl h1
        · exact Or.inr (List.mem_cons_of_mem kv h2)

theorem backupsGo_ok_mem (pat : CompiledPat) (df : Option Str) :
    ∀ (archives : List Str) (acc m : List (Str × Timestamp)),
      backupsGo pat df archives acc = .ok m →
      ∀ p t, (p, t) ∈ m →
        (p, t) ∈ acc ∨
        (p ∈ archives ∧ ∃ d, reMatch pat p = some (some d) ∧ parse_date d df = .ok t) := by
  intro archives
  induction archives with
  | nil =>
    intro acc m h p t hm
    simp only [backupsGo] at h
    exact Or.inl (by rw [Except.ok.inj h]; exact hm)
  | cons a0 rest ih =>
    intro acc m h p t hm
    simp only [backupsGo] at h
    cases hr : reMatch pat a0 with
    | none =>
      simp only [hr] at h
      rcases ih acc m h p t hm with h1 | ⟨h2, h3⟩
      · exact Or.inl h1
      · exact Or.inr ⟨List.mem_cons_of_mem a0 h2, h3⟩
    | some cap =>
      cases cap with
      | none => simp [hr] at h
      | some d0 =>
        simp only [hr] at h
        cases hp : parse_date d0 df with
        | error e => simp [hp] at h
        | ok t0 =>
          simp only [hp] at h
          rcases ih (dictSet acc a0 t0) m h p t hm with h1 | ⟨h2, h3⟩
          · rcases mem_dictSet acc a0 p t0 t h1 with ⟨rfl, rfl⟩ | hacc
            · exact Or.inr ⟨List.mem_cons_self p rest, d0, hr, hp⟩
            · exact Or.inl hacc
          · exact Or.inr ⟨List.mem_cons_of_mem a0 h2, h3⟩

theorem backupsGo_failfast (pat : CompiledPat) (df : Option Str)
    (hshape : ∀ d' msg, parse_date d' df ≠ .error (.valueError msg) ∨
      ∀ d'', (∃ t, parse_date d'' df = .ok t) ∨ ∃ m', parse_date d'' df = .error (.valueError m')) :
    ∀ (archives : List Str) (acc : List (Str × Timestamp)) (a d msg : Str),
      a ∈ archives → reMatch pat a = some (some d) →
      parse_date d df = .error (.valueError msg) →
      ∃ msg2, backupsGo pat df archives acc = .error (.valueError msg2) := by
  intro archives
  induction archives with
  | nil => intro acc a d msg ha; exact absurd ha (List.not_mem_nil a)
  | cons a0 rest ih =>
    intro acc a d msg ha hmtch hpd
    have hg : pat.hasGroup = true := reMatch_hasGroup_of_capture pat a d hmtch
    have hsh : ∀ d'', (∃ t, parse_date d'' df = .ok t) ∨
        ∃ m', parse_date d'' df = .error (.valueError m') := by
      rcases hshape d msg with hne | hok
      · exact absurd hpd hne
      · exact hok
    simp only [backupsGo]
    cases hr : reMatch pat a0 with
    | none =>
      rcases List.mem_cons.mp ha with rfl | ha'
      · rw [hmtch] at hr; exact absurd hr (by simp)
      · exact ih acc a d msg ha' hmtch hpd
    | some cap =>
      cases cap with
      | none => exact absurd hr (reMatch_no_bare_match pat a0 hg)
      | some d0 =>
        cases hp : parse_date d0 df with
        | error e =>
          rcases hsh d0 with ⟨t, ht⟩ | ⟨m', hm'⟩
          · rw [hp] at ht; exact absurd ht (by simp)
          · rw [hp] at hm'
            refine ⟨m', ?_⟩
            simp only [hp, Except.error.inj hm']
        | ok t0 =>
          rcases List.mem_cons.mp ha with rfl | ha'
          · rw [hmtch] at hr
            have : d = d0 := Option.some.inj (Option.some.inj hr)
            rw [this, hp] at hpd
            exact absurd hpd (by simp)
          · simp only [hp]
            exact ih (dictSet acc a0 t0) a d msg ha' hmtch hpd

/-- C2: `get_backups` compiles one matcher per call; identifiers the
matcher rejects are silently discarded (every entry of a successful
result comes from a matching identifier whose captured date parsed),
and if any matching identifier's captured date fails to parse, the whole
call fails with the date-parse `ValueError` — by the `Except` return
type no partial map is produced. -/
theorem spec_c2_match_backups (uniq : Str) (job : Job) (archives : List Str) (pat : CompiledPat)
    (hpat : jobMatcher uniq job = .ok pat) :
    (∀ m, get_backups uniq job archives = .ok m →
      ∀ p t, (p, t) ∈ m →
        p ∈ archives ∧ ∃ d, reMatch pat p = some (some d) ∧
          parse_date d job.dateformat = .ok t) ∧
    (∀ a d msg, a ∈ archives → reMatch pat a = some (some d) →
      parse_date d job.dateformat = .error (.valueError msg) →
      ∃ msg2, get_backups uniq job archives = .error (.valueError msg2)) := by
  have hgb : get_backups uniq job archives = backupsGo pat job.dateformat archives [] := by
    simp [get_backups, hpat, bind, Except.bind]
  constructor
  · intro m hok p t hm
    rw [hgb] at hok
    rcases backupsGo_ok_mem pat job.dateformat archives [] m hok p t hm with h1 | h2
    · exact absurd h1 (List.not_mem_nil (p, t))
    · exact h2
  · intro a d msg ha hmtch hpd
    rw [hgb]
    apply backupsGo_failfast pat job.dateformat ?_ archives [] a d msg ha hmtch hpd
    intro d' msg'
    by_cases hcase : parse_date d' job.dateformat = .error (.valueError msg')
    · exact Or.inr (fun d'' => parse_date_shape d' d'' job.dateformat msg' hcase)
    · exact Or.inl hcase

theorem spec_c2_match_backups_witness :
    (jobMatcher ("aaaa").data ⟨("j").data, ("$name-$date").data, none, none, []⟩ =
      .ok ⟨("j-").data, true, []⟩) ∧
    (∃ msg2, get_backups ("aaaa").data ⟨("j").data, ("$name-$date").data, none, none, []⟩
      [("j-xyz").data] = .error (.valueError msg2)) := by
  constructor
  · decide
  · exact (spec_c2_match_backups ("aaaa").data ⟨("j").data, ("$name-$date").data, none, none, []⟩
      [("j-xyz").data] ⟨("j-").data, true, []⟩ (by decide)).2
      ("j-xyz").data ("xyz").data ("xyz").data (by decide) (by decide) (by decide)

def removeNames (l : List Str) (names : List Str) : List Str :=
  names.foldl (fun acc nm => acc.erase nm) l

theorem get_archives_cached (env : ToolEnv) (st : BState) (l : List Str)
    (h : st.archiveList = some l) : get_archives env st = ⟨.ok l, st, []⟩ := by
  simp [get_archives, h]

theorem get_archives_ok_state (env : ToolEnv) (st : BState) (l : List Str)
    (h : (get_archives env st).res = .ok l) : (get_archives env st).st.archiveList = some l := by
  cases hst : st.archiveList with
  | some l0 =>
    rw [get_archives_cached env st l0 hst] at h ⊢
    simp only [Except.ok.inj h] at hst ⊢
    exact hst
  | none =>
    simp only [get_archives, hst] at h ⊢
    cases htc : tarsnapCall env .listArchives with
    | error e => simp [htc] at h
    | ok lines => simp [htc] at h ⊢; exact h

theorem noDestr_get_archives (env : ToolEnv) (st : BState) :
    noDestructive (get_archives env st).calls = true := by
  cases hst : st.archiveList with
  | some l0 => simp [get_archives, hst, noDestructive]
  | none =>
    cases htc : tarsnapCall env .listArchives with
    | error e => simp [get_archives, hst, htc, noDestructive, isDestructive]
    | ok lines => simp [get_archives, hst, htc, noDestructive, isDestructive]

theorem expireGo_dry_real (env : ToolEnv) (hd : ∀ n, env.deleteFails n = none)
    (keep : List Str) :
    ∀ (bks : List (Str × Timestamp)) (st : BState) (l : List Str) (cs1 cs2 : List ExtCall),
      st.archiveList = some l →
      (expireGo env true keep bks st cs1).res = (expireGo env false keep bks st cs2).res ∧
      (expireGo env true keep bks st cs1).st = (expireGo env false keep bks st cs2).st ∧
      (expireGo env true keep bks st cs1).calls = cs1 := by
  intro bks
  induction bks with
  | nil => intro st l cs1 cs2 _; exact ⟨rfl, rfl, rfl⟩
  | cons b rest ih =>
    intro st l cs1 cs2 hcache
    obtain ⟨nm, ts⟩ := b
    by_cases hk : keep.contains nm
    · simp only [expireGo, hk, if_true]
      exact ih st l cs1 cs2 hcache
    · have hga := get_archives_cached env st l hcache
      have htc : tarsnapCall env (.deleteA nm) = .ok [] := by
        simp [tarsnapCall, hd nm]
      simp only [expireGo, hk, if_false, Bool.false_eq_true, if_true, hga, htc]
      by_cases hmem : l.contains nm
      · simp only [hmem, if_true]
        obtain ⟨h1, h2, h3⟩ :=
          ih ⟨some (l.erase nm)⟩ (l.erase nm) (cs1 ++ []) (cs2 ++ [.deleteA nm] ++ []) rfl
        exact ⟨h1, h2, by simpa using h3⟩
      · simp only [hmem, Bool.false_eq_true, if_false]
        refine ⟨?_, ?_, ?_⟩ <;> simp

theorem expireGo_dry_state (env : ToolEnv) (keep : List Str) :
    ∀ (bks : List (Str × Timestamp)) (st : BState) (l : List Str) (cs : List ExtCall),
      st.archiveList = some l →
      (expireGo env true keep bks st cs).res = .ok () →
      (expireGo env true keep bks st cs).st.archiveList =
        some (removeNames l ((bks.filter (fun b => !(keep.contains b.1))).map Prod.fst)) := by
  intro bks
  induction bks with
  | nil =>
    intro st l cs hcache _
    simpa [expireGo, removeNames] using hcache
  | cons b rest ih =>
    intro st l cs hcache hok
    obtain ⟨nm, ts⟩ := b
    by_cases hk : keep.contains nm
    · simp only [expireGo, hk, if_true] at hok ⊢
      have hkf : (!keep.contains nm) = false := by simp only [hk, Bool.not_true]
      simp only [List.filter_cons, hkf, Bool.false_eq_true, if_false]
      exact ih st l cs hcache hok
    · have hga := get_archives_cached env st l hcache
      simp only [expireGo, hk, if_false, Bool.false_eq_true, if_true, hga] at hok ⊢
      by_cases hmem : l.contains nm
      · simp only [hmem, if_true] at hok ⊢
        have hk' : keep.contains nm = false := by simpa using hk
        have hkt : (!keep.contains nm) = true := by simp only [hk', Bool.not_false]
        simp only [List.filter_cons, hkt, if_true, List.map_cons, removeNames, List.foldl_cons]
        exact ih ⟨some (l.erase nm)⟩ (l.erase nm) (cs ++ []) rfl hok
      · rw [if_neg hmem] at hok
        exact absurd hok (by simp)

/-- C5: with every create/delete call succeeding in the environment, a
dry run of `expire` and `make` returns the same value and leaves the
same backend state (cache included) as a real run, while performing no
create or delete call; the cache is updated in place — `make` appends
the new target to the cached list, and a successful `expire` removes
exactly the names outside the keep set from it. -/
theorem spec_c5_dryrun (env : ToolEnv) (nowTs : Timestamp) (uniq : Str) (job : Job) (st : BState)
    (hd : ∀ n, env.deleteFails n = none) (hc : ∀ t, env.createFails t = none) :
    (expire_op env nowTs uniq true job st).res = (expire_op env nowTs uniq false job st).res ∧
    (expire_op env nowTs uniq true job st).st = (expire_op env nowTs uniq false job st).st ∧
    noDestructive (expire_op env nowTs uniq true job st).calls = true ∧
    (make_op env nowTs true job st).res = (make_op env nowTs false job st).res ∧
    (make_op env nowTs true job st).st = (make_op env nowTs false job st).st ∧
    noDestructive (make_op env nowTs true job st).calls = true ∧
    (∀ l, st.archiveList = some l →
      (make_op env nowTs true job st).st.archiveList = some (l ++ [makeTarget job nowTs])) ∧
    (∀ l bks, st.archiveList = some l → get_backups uniq job l = .ok bks →
      (expire_op env nowTs uniq true job st).res = .ok () →
      (expire_op env nowTs uniq true job st).st.archiveList =
        some (removeNames l (deletedNames bks (job.deltas.getD []) (tsToSec nowTs)))) := by
  have hex : (expire_op env nowTs uniq true job st).res =
        (expire_op env nowTs uniq false job st).res ∧
      (expire_op env nowTs uniq true job st).st = (expire_op env nowTs uniq false job st).st ∧
      noDestructive (expire_op env nowTs uniq true job st).calls = true := by
    rcases hga : get_archives env st with ⟨gres, gst, gcalls⟩
    have hnd : noDestructive gcalls = true := by
      have h0 := noDestr_get_archives env st
      rw [hga] at h0; exact h0
    cases gres with
    | error e =>
      refine ⟨?_, ?_, ?_⟩ <;> simp only [expire_op, hga]
      exact hnd
    | ok archives =>
      cases hgb : get_backups uniq job archives with
      | error e =>
        refine ⟨?_, ?_, ?_⟩ <;> simp only [expire_op, hga, hgb]
        exact hnd
      | ok bks =>
        have hcache : gst.archiveList = some archives := by
          have h0 := get_archives_ok_state env st archives (by rw [hga])
          rw [hga] at h0; exact h0
        obtain ⟨h1, h2, h3⟩ := expireGo_dry_real env hd
          (computeKeepSet bks (job.deltas.getD []) (tsToSec nowTs)) bks gst archives [] []
          hcache
        simp only [expire_op, hga, hgb]
        refine ⟨h1, h2, ?_⟩
        rw [h3]
        simpa using hnd
  have hmk : (make_op env nowTs true job st).res = (make_op env nowTs false job st).res ∧
      (make_op env nowTs true job st).st = (make_op env nowTs false job st).st ∧
      noDestructive (make_op env nowTs true job st).calls = true := by
    have htc : tarsnapCall env (.createA (makeTarget job nowTs) job.sources) = .ok [] := by
      simp [tarsnapCall, hc (makeTarget job nowTs)]
    rcases hga : get_archives env st with ⟨gres, gst, gcalls⟩
    have hnd : noDestructive gcalls = true := by
      have h0 := noDestr_get_archives env st
      rw [hga] at h0; exact h0
    cases gres with
    | error e =>
      refine ⟨?_, ?_, ?_⟩
      · simp [make_op, htc, hga]
      · simp [make_op, htc, hga]
      · simp [make_op, htc, hga, hnd]
    | ok l =>
      refine ⟨?_, ?_, ?_⟩
      · simp [make_op, htc, hga]
      · simp [make_op, htc, hga]
      · simp [make_op, htc, hga, hnd]
  have h7 : ∀ l, st.archiveList = some l →
      (make_op env nowTs true job st).st.archiveList = some (l ++ [makeTarget job nowTs]) := by
    intro l hcache
    have hga := get_archives_cached env st l hcache
    simp [make_op, hga]
  have h8 : ∀ l bks, st.archiveList = some l → get_backups uniq job l = .ok bks →
      (expire_op env nowTs uniq true job st).res = .ok () →
      (expire_op env nowTs uniq true job st).st.archiveList =
        some (removeNames l (deletedNames bks (job.deltas.getD []) (tsToSec nowTs))) := by
    intro l bks hcache hgbk hok
    have hga := get_archives_cached env st l hcache
    simp only [expire_op, hga, hgbk] at hok ⊢
    exact expireGo_dry_state env _ bks st l [] hcache hok
  exact ⟨hex.1, hex.2.1, hex.2.2, hmk.1, hmk.2.1, hmk.2.2, h7, h8⟩

theorem spec_c5_dryrun_witness :
    ((expire_op ⟨[("j2-20240105-120000").data, ("j2-20240105-060000").data,
        ("j2-20240105-000000").data], none, fun _ => none, fun _ => none⟩
      ⟨2024, 1, 6, 0, 0, 0⟩ ("abcd").data true
      ⟨("j2").data, ("$name-$date").data, none,
        some [((86400 : Int), (86400 : Int)), (604800, 86400)], []⟩ ⟨none⟩).st =
     (expire_op ⟨[("j2-20240105-120000").data, ("j2-20240105-060000").data,
        ("j2-20240105-000000").data], none, fun _ => none, fun _ => none⟩
      ⟨2024, 1, 6, 0, 0, 0⟩ ("abcd").data false
      ⟨("j2").data, ("$name-$date").data, none,
        some [((86400 : Int), (86400 : Int)), (604800, 86400)], []⟩ ⟨none⟩).st) ∧
    noDestructive (expire_op ⟨[("j2-20240105-120000").data, ("j2-20240105-060000").data,
        ("j2-20240105-000000").data], none, fun _ => none, fun _ => none⟩
      ⟨2024, 1, 6, 0, 0, 0⟩ ("abcd").data true
      ⟨("j2").data, ("$name-$date").data, none,
        some [((86400 : Int), (86400 : Int)), (604800, 86400)], []⟩ ⟨none⟩).calls = true ∧
    (expire_op ⟨[("j2-20240105-120000").data, ("j2-20240105-060000").data,
        ("j2-20240105-000000").data], none, fun _ => none, fun _ => none⟩
      ⟨2024, 1, 6, 0, 0, 0⟩ ("abcd").data true
      ⟨("j2").data, ("$name-$date").data, none,
        some [((86400 : Int), (86400 : Int)), (604800, 86400)], []⟩ ⟨none⟩).st.archiveList =
      some [("j2-20240105-120000").data, ("j2-20240105-000000").data] := by
  have h := spec_c5_dryrun
    ⟨[("j2-20240105-120000").data, ("j2-20240105-060000").data,
      ("j2-20240105-000000").data], none, fun _ => none, fun _ => none⟩
    ⟨2024, 1, 6, 0, 0, 0⟩ ("abcd").data
    ⟨("j2").data, ("$name-$date").data, none,
      some [((86400 : Int), (86400 : Int)), (604800, 86400)], []⟩ ⟨none⟩
    (fun _ => rfl) (fun _ => rfl)
  exact ⟨h.2.1, h.2.2.1, by decide⟩

theorem runJobs_append (env : ToolEnv) (nowTs : Timestamp) (uniq : Str) (dry : Bool) :
    ∀ (js1 js2 : List Job) (st : BState),
      runJobs env nowTs uniq dry (js1 ++ js2) st =
        match runJobs env nowTs uniq dry js1 st with
        | ⟨.error e, st', cs⟩ => ⟨.error e, st', cs⟩
        | ⟨.ok _, st', cs⟩ =>
          ⟨(runJobs env nowTs uniq dry js2 st').res, (runJobs env nowTs uniq dry js2 st').st,
            cs ++ (runJobs env nowTs uniq dry js2 st').calls⟩ := by
  intro js1
  induction js1 with
  | nil => intro js2 st; simp [runJobs]
  | cons j js ih =>
    intro js2 st
    simp only [List.cons_append, runJobs]
    rcases hx : expire_op env nowTs uniq dry j st with ⟨xres, xst, xcs⟩
    cases xres with
    | error e => simp
    | ok u =>
      simp only [List.append_eq]
      rw [ih js2 xst]
      rcases hr : runJobs env nowTs uniq dry js xst with ⟨rres, rst, rcs⟩
      cases rres with
      | error e => simp
      | ok u2 => simp

/-- C9: `_call` surfaces a failing tarsnap invocation as a
`TarsnapError` carrying the stderr text, and since `main` runs the jobs
in one `try` block, a job failing with it stops the whole run: no later
job is processed (their calls never happen), and the state and calls of
the earlier jobs — deletions included — are kept as they were, with no
rollback. -/
theorem spec_c9_abort (env : ToolEnv) (nowTs : Timestamp) (uniq : Str) (dry : Bool)
    (js1 : List Job) (jf : Job) (js2 : List Job) (st0 st1 st2 : BState)
    (T1 T2 : List ExtCall) (msg : Str)
    (h1 : runJobs env nowTs uniq dry js1 st0 = ⟨.ok (), st1, T1⟩)
    (h2 : expire_op env nowTs uniq dry jf st1 = ⟨.error (.tarsnapError msg), st2, T2⟩) :
    runJobs env nowTs uniq dry (js1 ++ jf :: js2) st0 =
      ⟨.error (.tarsnapError msg), st2, T1 ++ T2⟩ ∧
    (∀ n s, env.deleteFails n = some s →
      tarsnapCall env (.deleteA n) = .error (.tarsnapError s)) ∧
    (∀ t srcs s, env.createFails t = some s →
      tarsnapCall env (.createA t srcs) = .error (.tarsnapError s)) := by
  refine ⟨?_, ?_, ?_⟩
  · rw [runJobs_append env nowTs uniq dry js1 (jf :: js2) st0, h1]
    simp only [runJobs, h2]
  · intro n s h; simp [tarsnapCall, h]
  · intro t srcs s h; simp [tarsnapCall, h]

theorem spec_c9_abort_witness :
    runJobs ⟨[("j2-20240105-120000").data, ("j2-20240105-060000").data,
        ("j2-20240105-000000").data], none,
        fun n => if n = ("j2-20240105-060000").data then some ("boom").data else none,
        fun _ => none⟩
      ⟨2024, 1, 6, 0, 0, 0⟩ ("abcd").data false
      [⟨("j1").data, ("$name-$date").data, none, none, []⟩,
       ⟨("j2").data, ("$name-$date").data, none,
         some [((86400 : Int), (86400 : Int)), (604800, 86400)], []⟩,
       ⟨("j1").data, ("$name-$date").data, none, none, []⟩] ⟨none⟩ =
      ⟨.error (.tarsnapError ("boom").data),
       ⟨some [("j2-20240105-120000").data, ("j2-20240105-060000").data,
         ("j2-20240105-000000").data]⟩,
       [.listArchives, .deleteA ("j2-20240105-060000").data]⟩ := by
  have h := spec_c9_abort ⟨[("j2-20240105-120000").data, ("j2-20240105-060000").data,
        ("j2-20240105-000000").data], none,
        fun n => if n = ("j2-20240105-060000").data then some ("boom").data else none,
        fun _ => none⟩
      ⟨2024, 1, 6, 0, 0, 0⟩ ("abcd").data false
      [⟨("j1").data, ("$name-$date").data, none, none, []⟩]
      ⟨("j2").data, ("$name-$date").data, none,
        some [((86400 : Int), (86400 : Int)), (604800, 86400)], []⟩
      [⟨("j1").data, ("$name-$date").data, none, none, []⟩]
      ⟨none⟩
      ⟨some [("j2-20240105-120000").data, ("j2-20240105-060000").data,
        ("j2-20240105-000000").data]⟩
      ⟨some [("j2-20240105-120000").data, ("j2-20240105-060000").data,
        ("j2-20240105-000000").data]⟩
      [.listArchives] [.deleteA ("j2-20240105-060000").data] ("boom").data
      (by decide) (by decide)
  exact h.1

theorem strStarts_append (A X : Str) : strStarts A (A ++ X) = true := by
  induction A with
  | nil => rfl
  | cons c t ih => simp [strStarts, ih]

theorem strStarts_decomp (p : Str) : ∀ s : Str, strStarts p s = true → s = p ++ s.drop p.length := by
  induction p with
  | nil => intro s _; simp
  | cons c t ih =>
    intro s h
    cases s with
    | nil => exact absurd h (by simp [strStarts])
    | cons x s' =>
      simp only [strStarts, Bool.and_eq_true, decide_eq_true_eq] at h
      obtain ⟨rfl, h2⟩ := h
      simpa using ih s' h2

theorem reEscape_append (X Y : Str) : reEscape (X ++ Y) = reEscape X ++ reEscape Y := by
  simp [reEscape]

theorem reEscape_alnum (U : Str) (h : ∀ c ∈ U, isAlnumUnd c = true) : reEscape U = U := by
  induction U with
  | nil => rfl
  | cons c t ih =>
    have hc : isAlnumUnd c = true := h c (List.mem_cons_self c t)
    have ht : reEscape t = t := ih (fun x hx => h x (List.mem_cons_of_mem c hx))
    simp [reEscape, escChar, hc] at ht ⊢
    exact ht

theorem reEscape_length_ge (X : Str) : X.length ≤ (reEscape X).length := by
  induction X with
  | nil => simp [reEscape]
  | cons c t ih =>
    have h1 : 1 ≤ (escChar c).length := by
      simp only [escChar]
      split
      · simp
      · split <;> simp
    simp only [reEscape, List.flatMap_cons, List.length_append, List.length_cons]
    have := ih
    simp only [reEscape] at this
    omega

theorem countOcc_tail_le (pat c : _) (t : Str) : countOcc pat t ≤ countOcc pat (c :: t) := by
  simp only [countOcc]
  omega

theorem countOcc_drop_le (pat : Str) : ∀ (n : Nat) (s : Str), countOcc pat (s.drop n) ≤ countOcc pat s := by
  intro n
  induction n with
  | zero => intro s; simp
  | succ k ih =>
    intro s
    cases s with
    | nil => simp
    | cons c t =>
      calc countOcc pat ((c :: t).drop (k + 1)) = countOcc pat (t.drop k) := by simp
        _ ≤ countOcc pat t := ih t
        _ ≤ countOcc pat (c :: t) := countOcc_tail_le pat c t

theorem countOcc_pos_of_starts (pat s : Str) (h : strStarts pat s = true) : 1 ≤ countOcc pat s := by
  cases s with
  | nil => simp [countOcc, h]
  | cons c t => simp [countOcc, h]

theorem countOcc_mid_pos (p : Char) (ps Y : Str) :
    ∀ X : Str, 1 ≤ countOcc (p :: ps) (X ++ (p :: ps) ++ Y) := by
  intro X
  induction X with
  | nil =>
    apply countOcc_pos_of_starts
    simpa using strStarts_append (p :: ps) Y
  | cons c t ih =>
    calc (1 : Nat) ≤ countOcc (p :: ps) (t ++ (p :: ps) ++ Y) := ih
      _ ≤ countOcc (p :: ps) (c :: (t ++ (p :: ps) ++ Y)) :=
        countOcc_tail_le (p :: ps) c (t ++ (p :: ps) ++ Y)
      _ = countOcc (p :: ps) ((c :: t) ++ (p :: ps) ++ Y) := by simp

theorem replaceAllF_count_zero (p : Char) (ps rep : Str) :
    ∀ (fuel : Nat) (s : Str), s.length < fuel → countOcc (p :: ps) s = 0 →
      replaceAllF fuel s (p :: ps) rep = s := by
  intro fuel
  induction fuel with
  | zero => intro s h; omega
  | succ fu ih =>
    intro s hlen hcnt
    cases s with
    | nil => rfl
    | cons c t =>
      simp only [countOcc] at hcnt
      have hns : strStarts (p :: ps) (c :: t) = false := by
        by_cases h : strStarts (p :: ps) (c :: t) = true
        · rw [h] at hcnt; simp at hcnt
        · simpa using h
      simp only [replaceAllF, hns, Bool.false_eq_true, if_false]
      have : countOcc (p :: ps) t = 0 := by
        rw [hns] at hcnt; simpa using hcnt
      rw [ih t (by simpa using Nat.lt_of_succ_lt_succ hlen) this]

theorem replaceAllF_once (p : Char) (ps rep Y : Str) :
    ∀ (fuel : Nat) (X : Str), (X ++ (p :: ps) ++ Y).length < fuel →
      countOcc (p :: ps) (X ++ (p :: ps) ++ Y) = 1 →
      replaceAllF fuel (X ++ (p :: ps) ++ Y) (p :: ps) rep = X ++ rep ++ Y := by
  intro fuel
  induction fuel with
  | zero => intro X h; omega
  | succ fu ih =>
    intro X hlen hcnt
    cases X with
    | nil =>
      simp only [List.nil_append, List.cons_append] at hlen hcnt ⊢
      have hst : strStarts (p :: ps) (p :: (ps ++ Y)) = true := by
        simpa using strStarts_append (p :: ps) Y
      simp only [replaceAllF, hst, if_true]
      have hY0 : countOcc (p :: ps) Y = 0 := by
        have hd := countOcc_drop_le (p :: ps) ps.length (ps ++ Y)
        rw [List.drop_left] at hd
        simp only [countOcc, hst, if_true] at hcnt
        omega
      have hYlen : Y.length < fu := by
        simp only [List.length_cons, List.length_append] at hlen
        omega
      have hdrop : (ps ++ Y).drop ps.length = Y := List.drop_left ps Y
      rw [hdrop, replaceAllF_count_zero p ps rep fu Y hYlen hY0]
    | cons c X' =>
      simp only [List.cons_append] at hlen hcnt ⊢
      have hone : 1 ≤ countOcc (p :: ps) (X' ++ (p :: ps) ++ Y) := countOcc_mid_pos p ps Y X'
      have hns : strStarts (p :: ps) (c :: (X' ++ (p :: ps) ++ Y)) = false := by
        by_cases h : strStarts (p :: ps) (c :: (X' ++ (p :: ps) ++ Y)) = true
        · exfalso
          have hc2 : countOcc (p :: ps) (c :: (X' ++ (p :: ps) ++ Y)) =
              1 + countOcc (p :: ps) (X' ++ (p :: ps) ++ Y) := by
            simp only [countOcc, h, if_true]
          simp only [List.cons_append] at hc2
          omega
        · simpa using h
      simp only [List.cons_append] at hns
      simp only [replaceAllF, hns, Bool.false_eq_true, if_false]
      have hcnt' : countOcc (p :: ps) (X' ++ (p :: ps) ++ Y) = 1 := by
        have : countOcc (p :: ps) (c :: (X' ++ (p :: ps) ++ Y)) = 1 := by
          simpa using hcnt
        simp only [countOcc, hns] at this
        simpa using this
      have hlen' : (X' ++ (p :: ps) ++ Y).length < fu := by
        have : (c :: (X' ++ (p :: ps) ++ Y)).length < fu + 1 := by simpa using hlen
        simp only [List.length_cons] at this
        omega
      rw [ih X' hlen' hcnt']

theorem replaceAll_single (pat rep X Y : Str) (hne : pat ≠ [])
    (hcnt : countOcc pat (X ++ pat ++ Y) = 1) :
    replaceAll (X ++ pat ++ Y) pat rep = X ++ rep ++ Y := by
  cases pat with
  | nil => exact absurd rfl hne
  | cons p ps =>
    exact replaceAllF_once p ps rep Y ((X ++ (p :: ps) ++ Y).length + 1) X (by omega) hcnt

/-- Folding `pbPush` over a run of literal characters. -/
def pbPushAll : Str → Str → Option Str → Str × Option Str
  | [], pre, g => (pre, g)
  | c :: X, pre, g => pbPushAll X (pbPush c pre g).1 (pbPush c pre g).2

theorem pbPushAll_none : ∀ (X pre : Str), pbPushAll X pre none = (X.reverse ++ pre, none) := by
  intro X
  induction X with
  | nil => intro pre; simp [pbPushAll]
  | cons c t ih => intro pre; simp [pbPushAll, pbPush, ih]

theorem pbPushAll_some : ∀ (X pre post : Str),
    pbPushAll X pre (some post) = (pre, some (X.reverse ++ post)) := by
  intro X
  induction X with
  | nil => intro pre post; simp [pbPushAll]
  | cons c t ih => intro pre post; simp [pbPushAll, pbPush, ih]

theorem alnum_props (c : Char) (h : isAlnumUnd c = true) :
    regexMeta c = false ∧ c ≠ '\\' ∧ c ≠ '(' ∧ c ≠ '0' ∨
    c = '0' ∧ regexMeta c = false ∧ c ≠ '\\' ∧ c ≠ '(' := by
  by_cases h0 : c = '0'
  · subst h0
    exact Or.inr ⟨rfl, by decide, by decide, by decide⟩
  · refine Or.inl ⟨?_, ?_, ?_, h0⟩
    · by_contra hm
      have hm' : regexMeta c = true := by simpa using hm
      simp only [regexMeta, decide_eq_true_eq] at hm'
      rcases hm' with rfl | rfl | rfl | rfl | rfl | rfl | rfl | rfl | rfl | rfl | rfl | rfl | rfl | rfl <;>
        exact absurd h (by decide)
    · rintro rfl; exact absurd h (by decide)
    · rintro rfl; exact absurd h (by decide)

theorem alnum_not_meta (c : Char) (h : isAlnumUnd c = true) :
    regexMeta c = false ∧ c ≠ '\\' ∧ c ≠ '(' := by
  rcases alnum_props c h with ⟨h1, h2, h3, _⟩ | ⟨_, h1, h2, h3⟩ <;> exact ⟨h1, h2, h3⟩

theorem parseBodyF_nil (f : Nat) (pre : Str) (g : Option Str) :
    parseBodyF f [] pre g = pbDone pre g := by
  cases f <;> rfl

theorem parseBodyF_backslash (fu : Nat) (c : Char) (r pre : Str) (g : Option Str) :
    parseBodyF (fu + 1) ('\\' :: c :: r) pre g =
      if strStarts ['0', '0', '0'] (c :: r) = true then
        parseBodyF fu ((c :: r).drop 3) (pbPush '\x00' pre g).1 (pbPush '\x00' pre g).2
      else parseBodyF fu r (pbPush c pre g).1 (pbPush c pre g).2 := rfl

theorem parseBodyF_open (fu : Nat) (r pre : Str) (g : Option Str) :
    parseBodyF (fu + 1) ('(' :: r) pre g =
      if strStarts groupTail r = true then
        match g with
        | some _ => .error .reError
        | none => parseBodyF fu (r.drop groupTail.length) pre (some [])
      else .error .reError := rfl

theorem parseBodyF_other (fu : Nat) (c : Char) (r pre : Str) (g : Option Str)
    (hb : c ≠ '\\') (hp : c ≠ '(') :
    parseBodyF (fu + 1) (c :: r) pre g =
      if regexMeta c = true then .error .reError
      else parseBodyF fu r (pbPush c pre g).1 (pbPush c pre g).2 := by
  simp only [parseBodyF, if_neg hb, if_neg hp]

theorem parseBodyF_escape : ∀ (X : Str) (fuel : Nat) (rest pre : Str) (g : Option Str),
    X.length ≤ fuel →
    parseBodyF fuel (reEscape X ++ rest) pre g =
      parseBodyF (fuel - X.length) rest (pbPushAll X pre g).1 (pbPushAll X pre g).2 := by
  intro X
  induction X with
  | nil => intro fuel rest pre g _; simp [reEscape, pbPushAll]
  | cons c X' ih =>
    intro fuel rest pre g hlen
    cases fuel with
    | zero => simp at hlen
    | succ fu =>
      have hlen' : X'.length ≤ fu := by simp at hlen; omega
      by_cases ha : isAlnumUnd c = true
      · obtain ⟨hm, hb, hp⟩ := alnum_not_meta c ha
        have hesc : reEscape (c :: X') = c :: reEscape X' := by
          simp [reEscape, escChar, ha]
        rw [hesc, List.cons_append, parseBodyF_other fu c _ pre g hb hp, if_neg (by simp [hm])]
        rw [ih fu rest (pbPush c pre g).1 (pbPush c pre g).2 hlen']
        simp [pbPushAll]
      · by_cases h0 : c = '\x00'
        · subst h0
          have hnul : isAlnumUnd '\x00' = false := by decide
          have hesc : reEscape ('\x00' :: X') = '\\' :: '0' :: '0' :: '0' :: reEscape X' := by
            simp [reEscape, escChar, hnul]
          rw [hesc]
          have hz : strStarts ['0', '0', '0'] ('0' :: '0' :: '0' :: (reEscape X' ++ rest)) = true := by
            simp [strStarts]
          rw [show ('\\' :: '0' :: '0' :: '0' :: reEscape X') ++ rest =
            '\\' :: '0' :: ('0' :: '0' :: (reEscape X' ++ rest)) from by simp]
          rw [parseBodyF_backslash fu '0' ('0' :: '0' :: (reEscape X' ++ rest)) pre g]
          rw [if_pos (by simpa using hz)]
          simp only [List.drop_succ_cons, List.drop_zero]
          rw [ih fu rest (pbPush '\x00' pre g).1 (pbPush '\x00' pre g).2 hlen']
          simp [pbPushAll]
        · have hesc : reEscape (c :: X') = '\\' :: c :: reEscape X' := by
            simp [reEscape, escChar, ha, h0]
          rw [hesc]
          have hc0 : c ≠ '0' := by
            rintro rfl; exact ha (by decide)
          have hnz : strStarts ['0', '0', '0'] (c :: (reEscape X' ++ rest)) = false := by
            simp [strStarts, Ne.symm hc0]
          rw [show ('\\' :: c :: reEscape X') ++ rest = '\\' :: c :: (reEscape X' ++ rest) from by simp]
          rw [parseBodyF_backslash fu c (reEscape X' ++ rest) pre g]
          rw [if_neg (by simp [hnz])]
          rw [ih fu rest (pbPush c pre g).1 (pbPush c pre g).2 hlen']
          simp [pbPushAll]

theorem parseBodyF_group (fu : Nat) (tail pre : Str) :
    parseBodyF (fu + 1) (groupStr ++ tail) pre none = parseBodyF fu tail pre (some []) := by
  have hgs : groupStr ++ tail = '(' :: (groupTail ++ tail) := by
    simp [groupStr, groupTail]
  rw [hgs, parseBodyF_open fu (groupTail ++ tail) pre none,
    if_pos (strStarts_append groupTail tail), List.drop_left]


theorem compilePattern_core (A B : Str) :
    compilePattern ('^' :: ((reEscape A ++ (groupStr ++ reEscape B)) ++ ['$'])) =
      .ok ⟨A, true, B⟩ := by
  have hlast : ((reEscape A ++ (groupStr ++ reEscape B)) ++ ['$']).getLast? = some '$' :=
    List.getLast?_concat _
  have hdl : ((reEscape A ++ (groupStr ++ reEscape B)) ++ ['$']).dropLast =
      reEscape A ++ (groupStr ++ reEscape B) := List.dropLast_concat
  simp only [compilePattern, hlast, if_pos, hdl, parseBody]
  have hga : (reEscape A).length ≥ A.length := reEscape_length_ge A
  have hgb : (reEscape B).length ≥ B.length := reEscape_length_ge B
  set core := reEscape A ++ (groupStr ++ reEscape B) with hcore
  have hclen : core.length = (reEscape A).length + (groupStr.length + (reEscape B).length) := by
    simp [hcore]
  have hgl : groupStr.length = 13 := by decide
  have h1 : A.length ≤ core.length + 1 := by omega
  rw [parseBodyF_escape A (core.length + 1) (groupStr ++ reEscape B) [] none h1]
  rw [pbPushAll_none]
  have h2 : core.length + 1 - A.length = (core.length - A.length) + 1 := by omega
  rw [h2, parseBodyF_group (core.length - A.length) (reEscape B) (A.reverse ++ [])]
  have hBB : reEscape B = reEscape B ++ [] := (List.append_nil _).symm
  rw [hBB]
  have h3 : B.length ≤ core.length - A.length := by omega
  rw [parseBodyF_escape B (core.length - A.length) [] (A.reverse ++ []) (some []) h3]
  rw [pbPushAll_some, parseBodyF_nil]
  simp [pbDone]

theorem renderToks_append (m : List (Str × Str)) :
    ∀ P Q : List TTok, renderToks m (P ++ Q) =
      match renderToks m P, renderToks m Q with
      | .ok a, .ok b => .ok (a ++ b)
      | .error e, _ => .error e
      | .ok _, .error e => .error e := by
  intro P
  induction P with
  | nil =>
    intro Q
    simp only [List.nil_append, renderToks]
    cases renderToks m Q <;> simp
  | cons t ts ih =>
    intro Q
    simp only [List.cons_append, renderToks]
    cases ht : renderTok m t with
    | error e => simp
    | ok s =>
      simp only [List.append_eq]
      rw [ih Q]
      cases hts : renderToks m ts with
      | error e => simp
      | ok a =>
        cases hq : renderToks m Q with
        | error e => simp
        | ok b => simp

theorem renderToks_date_irrel (nm v v' : Str) :
    ∀ toks : List TTok, (∀ b, TTok.var b dateKey ∉ toks) →
      renderToks [(nameKey, nm), (dateKey, v)] toks =
        renderToks [(nameKey, nm), (dateKey, v')] toks := by
  intro toks
  induction toks with
  | nil => intro _; rfl
  | cons t ts ih =>
    intro hnd
    have hts : ∀ b, TTok.var b dateKey ∉ ts := by
      intro b hb
      exact hnd b (List.mem_cons_of_mem t hb)
    have hhead : renderTok [(nameKey, nm), (dateKey, v)] t =
        renderTok [(nameKey, nm), (dateKey, v')] t := by
      cases t with
      | lit c => rfl
      | invalid => rfl
      | var b id =>
        have hid : id ≠ dateKey := by
          rintro rfl
          exact hnd b (List.mem_cons_self _ _)
        have hd : ¬dateKey = id := fun h => hid h.symm
        simp only [renderTok, lookupA]
        by_cases hn : nameKey = id
        · simp [hn]
        · simp [hn, hd]
    simp only [renderToks, hhead, ih hts]

theorem findCap_hit (B acc s : Str)
    (h : (strStarts B s && endOk (s.drop B.length)) = true) :
    findCap B acc s = some acc.reverse := by
  cases s with
  | nil =>
    simp only [findCap]
    rw [if_pos h]
  | cons c s' =>
    simp only [findCap]
    rw [if_pos h]

theorem findCap_exact (B : Str) :
    ∀ (D acc : Str), '\n' ∉ D → findCap B acc (D ++ B) = some (acc.reverse ++ D) := by
  intro D
  induction D with
  | nil =>
    intro acc _
    have h1 : strStarts B B = true := by simpa using strStarts_append B []
    have h : (strStarts B B && endOk (B.drop B.length)) = true := by
      simp [h1, List.drop_length, endOk]
    have h2 := findCap_hit B acc B h
    simpa using h2
  | cons c D' ih =>
    intro acc hnl
    have hcn : c ≠ '\n' := by
      rintro rfl
      exact hnl (List.mem_cons_self _ _)
    have hnD' : '\n' ∉ D' := fun h => hnl (List.mem_cons_of_mem c h)
    have hcond : (strStarts B (c :: (D' ++ B)) &&
        endOk ((c :: (D' ++ B)).drop B.length)) = false := by
      by_cases hs : strStarts B (c :: (D' ++ B)) = true
      · by_cases he : endOk ((c :: (D' ++ B)).drop B.length) = true
        · exfalso
          have hdec := strStarts_decomp B (c :: (D' ++ B)) hs
          set r := (c :: (D' ++ B)).drop B.length with hr
          have hrlen : r.length = D'.length + 1 := by
            have hlen := congrArg List.length hdec
            simp only [List.length_cons, List.length_append] at hlen
            omega
          have hre : r = ['\n'] := by
            cases hrx : r with
            | nil => rw [hrx] at hrlen; simp at hrlen
            | cons x xs =>
              rw [hrx] at he
              simp only [endOk, Bool.and_eq_true, decide_eq_true_eq,
                List.isEmpty_iff] at he
              rw [he.1, he.2]
          rw [hre] at hrlen
          simp only [List.length_singleton] at hrlen
          have hD0 : D' = [] := by
            have : D'.length = 0 := by omega
            exact List.length_eq_zero.mp this
          rw [hD0, hre] at hdec
          simp only [List.nil_append] at hdec
          have hcount := congrArg (fun l => l.count '\n') hdec
          simp only [List.count_cons, List.count_append, List.count_singleton] at hcount
          by_cases hcc : c = '\n'
          · exact hcn hcc
          · have hbe : (c == '\n') = false := by simp [hcc]
            rw [hbe] at hcount
            simp at hcount
        · have he' : endOk ((c :: (D' ++ B)).drop B.length) = false := by
            simpa using he
          simp [he']
      · have hs' : strStarts B (c :: (D' ++ B)) = false := by simpa using hs
        simp [hs']
    rw [List.cons_append]
    simp only [findCap]
    rw [hcond]
    simp only [Bool.false_eq_true, if_false]
    rw [if_neg hcn]
    rw [ih (c :: acc) hnD']
    simp

theorem reMatch_exact (A B D : Str) (hD : '\n' ∉ D) :
    reMatch ⟨A, true, B⟩ (A ++ (D ++ B)) = some (some D) := by
  simp only [reMatch]
  rw [if_pos (strStarts_append A (D ++ B))]
  simp only [List.drop_left, if_pos]
  rw [findCap_exact B D [] hD]
  simp

theorem substituteT_split (tmpl name : Str) (P Q : List TTok) (b : Bool)
    (htok : tokenizeT tmpl = P ++ TTok.var b dateKey :: Q) (v A' B' : Str)
    (hA : renderToks [(nameKey, name), (dateKey, v)] P = .ok A')
    (hB : renderToks [(nameKey, name), (dateKey, v)] Q = .ok B') :
    substituteT tmpl [(nameKey, name), (dateKey, v)] = .ok (A' ++ (v ++ B')) := by
  have hvar : renderTok [(nameKey, name), (dateKey, v)] (TTok.var b dateKey) = .ok v := by
    have hnd : (nameKey = dateKey) = False := by
      simp [nameKey, dateKey]
    simp [renderTok, lookupA, hnd]
  simp only [substituteT, htok]
  rw [renderToks_append]
  rw [hA]
  simp only [renderToks, hvar, hB]

/-- C1 (amended): for a template containing `$name` and exactly one
`$date`, a marker of alphanumeric characters occurring exactly once in
the escaped instantiated target (the guarantees `uuid4().hex` provides
with overwhelming probability), and a date text produced by a date
format free of regex metacharacters AND WHOSE OUTPUT CONTAINS NO
NEWLINE, the compiled matcher applied to the identifier obtained by
substituting the job name and the date text into the template captures
exactly that date text. -/
theorem spec_c1_round_trip
    (tmpl name uniq fmt : Str) (ts : Timestamp) (dateText : Str)
    (P Q : List TTok) (b : Bool) (A B : Str) (job : Job)
    (hjobn : job.name = name) (hjobt : job.target = tmpl)
    (htok : tokenizeT tmpl = P ++ TTok.var b dateKey :: Q)
    (hnd : ∀ b', TTok.var b' dateKey ∉ P ++ Q)
    (_hname : ∃ b', TTok.var b' nameKey ∈ P ++ TTok.var b dateKey :: Q)
    (hA : renderToks [(nameKey, name), (dateKey, uniq)] P = .ok A)
    (hB : renderToks [(nameKey, name), (dateKey, uniq)] Q = .ok B)
    (hu1 : uniq ≠ [])
    (hu2 : ∀ c ∈ uniq, isAlnumUnd c = true)
    (honce : countOcc uniq (reEscape A ++ uniq ++ reEscape B) = 1)
    (_hdt : dateText = strftime fmt ts)
    (_hmeta : ∀ c ∈ fmt, regexMeta c = false)
    (hnl : '\n' ∉ dateText) :
    jobMatcher uniq job = .ok ⟨A, true, B⟩ ∧
    substituteT tmpl [(nameKey, name), (dateKey, dateText)] = .ok (A ++ dateText ++ B) ∧
    reMatch ⟨A, true, B⟩ (A ++ dateText ++ B) = some (some dateText) := by
  have hndP : ∀ b', TTok.var b' dateKey ∉ P := fun b' hm =>
    hnd b' (List.mem_append_left Q hm)
  have hndQ : ∀ b', TTok.var b' dateKey ∉ Q := fun b' hm =>
    hnd b' (List.mem_append_right P hm)
  have hsubU : substituteT tmpl [(nameKey, name), (dateKey, uniq)] = .ok (A ++ (uniq ++ B)) :=
    substituteT_split tmpl name P Q b htok uniq A B hA hB
  have hA' : renderToks [(nameKey, name), (dateKey, dateText)] P = .ok A := by
    rw [renderToks_date_irrel name dateText uniq P hndP]
    exact hA
  have hB' : renderToks [(nameKey, name), (dateKey, dateText)] Q = .ok B := by
    rw [renderToks_date_irrel name dateText uniq Q hndQ]
    exact hB
  have hsubD : substituteT tmpl [(nameKey, name), (dateKey, dateText)] =
      .ok (A ++ (dateText ++ B)) :=
    substituteT_split tmpl name P Q b htok dateText A B hA' hB'
  have hesc : reEscape (A ++ (uniq ++ B)) = reEscape A ++ uniq ++ reEscape B := by
    rw [reEscape_append, reEscape_append, reEscape_alnum uniq hu2]
    simp [List.append_assoc]
  have hrepl : replaceAll (reEscape (A ++ (uniq ++ B))) uniq groupStr =
      reEscape A ++ groupStr ++ reEscape B := by
    rw [hesc]
    exact replaceAll_single uniq groupStr (reEscape A) (reEscape B) hu1 honce
  have hcomp : compilePattern ('^' ::
      (replaceAll (reEscape (A ++ (uniq ++ B))) uniq groupStr ++ ['$'])) = .ok ⟨A, true, B⟩ := by
    rw [hrepl]
    have hshape : (reEscape A ++ groupStr ++ reEscape B) ++ ['$'] =
        (reEscape A ++ (groupStr ++ reEscape B)) ++ ['$'] := by
      simp [List.append_assoc]
    rw [hshape]
    exact compilePattern_core A B
  refine ⟨?_, ?_, ?_⟩
  · simp only [jobMatcher, hjobt, hjobn, hsubU, bind, Except.bind]
    exact hcomp
  · rw [hsubD]
    simp [List.append_assoc]
  · have hassoc : A ++ dateText ++ B = A ++ (dateText ++ B) := by
      simp [List.append_assoc]
    rw [hassoc]
    exact reMatch_exact A B dateText hnl

theorem spec_c1_round_trip_witness :
    jobMatcher ("abcd1234").data ⟨("host").data, ("b-$name-$date").data, none, none, []⟩ =
      .ok ⟨("b-host-").data, true, []⟩ ∧
    substituteT ("b-$name-$date").data
      [(nameKey, ("host").data), (dateKey, ("20240110-123005").data)] =
      .ok (("b-host-").data ++ ("20240110-123005").data ++ []) ∧
    reMatch ⟨("b-host-").data, true, []⟩
      (("b-host-").data ++ ("20240110-123005").data ++ []) =
      some (some ("20240110-123005").data) :=
  spec_c1_round_trip ("b-$name-$date").data ("host").data ("abcd1234").data
    ("%Y%m%d-%H%M%S").data ⟨2024, 1, 10, 12, 30, 5⟩ ("20240110-123005").data
    [.lit 'b', .lit '-', .var false nameKey, .lit '-'] [] false
    ("b-host-").data [] ⟨("host").data, ("b-$name-$date").data, none, none, []⟩
    rfl rfl (by decide) (by decide) (by decide) (by decide) (by decide)
    (by decide) (by decide) (by decide) (by decide) (by decide) (by decide)

/-- C1 counterexample: the format `"%H\n%M"` contains no regex
metacharacter, yet its output contains a newline, which the non-greedy
group (Python `.` does not match a newline) can never capture: the
matcher is built as claimed but `extract` returns no match instead of
the date text, so the round trip fails as originally stated. -/
theorem spec_c1_cex :
    (∀ c ∈ ("%H\n%M").data, regexMeta c = false) ∧
    strftime ("%H\n%M").data ⟨2024, 1, 1, 12, 30, 0⟩ = ("12\n30").data ∧
    substituteT ("$name-$date").data [(nameKey, ("j").data), (dateKey, ("12\n30").data)] =
      .ok ("j-12\n30").data ∧
    jobMatcher ("aaaa").data ⟨("j").data, ("$name-$date").data, none, none, []⟩ =
      .ok ⟨("j-").data, true, []⟩ ∧
    reMatch ⟨("j-").data, true, []⟩ ("j-12\n30").data = none := by
  decide
